import Mathlib

/-!
# UT IPC: server and client engines

A shallow embedding of `include/ut/ipc/server.cpp` and `include/ut/ipc/client.cpp`.

* Descriptors and return values (`int`, `ssize_t`) are `Int`; bit masks (`short revents`) are `Nat`.
  No count in the code can reach the width of its machine type (a payload of `2^63` bytes cannot
  be allocated), so no wrap-around is modelled.
* Every system call is a parameter: its result is supplied by an environment record and the
  call is appended to a trace of effects, together with the events the engine publishes.
* The heap block built by `realloc`/`memcpy` is a list of cells; a cell that was never
  written is `none`, and a `memcpy` that leaves the block yields `Data.fault`. `realloc` is
  taken to succeed.
* The loop thread is interleaved with the public operations pass by pass: one pass is the
  body of the loop it is in, followed by the loop tests that lead to the next body. The
  mutex of `start`/`stop` is not modelled.
-/

namespace UT

/-! ## Constants (`common.h`, `<poll.h>`, `<errno.h>`, `<fcntl.h>` on Linux) -/

/-- `#define UT_IPC_BUFFER_SIZE 4096`. -/
def UT_IPC_BUFFER_SIZE : Nat := 4096

/-- `#define UT_IPC_SOCKET_PATH "/tmp/ut.ipc."`. -/
def UT_IPC_SOCKET_PATH : String := "/tmp/ut.ipc."

/-- `#define UT_IPC_RECONNECT_TIMEOUT 10`. -/
def UT_IPC_RECONNECT_TIMEOUT : Nat := 10

def POLLIN : Nat := 1
def POLLERR : Nat := 8
def POLLHUP : Nat := 16
def ENOENT : Nat := 2
def EINTR : Nat := 4
def EWOULDBLOCK : Nat := 11
def ECONNRESET : Nat := 104

/-- `struct pollfd` of `<poll.h>`. -/
structure pollfd where
  fd : Int
  events : Nat
  revents : Nat
deriving DecidableEq, Repr

instance : Inhabited pollfd := ⟨⟨0, 0, 0⟩⟩

/-- C's logical negation `!x` of an integer: `1` when `x` is zero, `0` otherwise. -/
def lnot (x : Nat) : Nat := if x = 0 then 1 else 0

/-! ## The receive buffer built with `realloc` and `memcpy` -/

/-- The value of the local `void* data`: the null pointer, a heap block (one cell per byte,
`none` for a byte that was never written), or the state after a write outside the block. -/
inductive Data where
  | nullptr
  | block (cells : List (Option Nat))
  | fault
deriving DecidableEq, Repr

/-- `realloc(data, size)`: keeps the first `size` cells and leaves new cells unwritten. -/
def realloc : Data → Nat → Data
  | .nullptr, size => .block (List.replicate size none)
  | .block cells, size => .block (cells.take size ++ List.replicate (size - cells.length) none)
  | .fault, _ => .fault

/-- `memcpy(static_cast<char*>(data) + off, src, src.length)`: in bounds it overwrites the
cells `off .. off + src.length`; a write that leaves the block is a fault. -/
def memcpy : Data → Nat → List Nat → Data
  | .block cells, off, src =>
      if off + src.length ≤ cells.length then
        .block (cells.take off ++ src.map some ++ cells.drop (off + src.length))
      else .fault
  | .nullptr, _, src => if src.length = 0 then .nullptr else .fault
  | .fault, _, _ => .fault

/-! ## Sockets as seen by `recv` -/

/-- One result of `recv(fd, mBuffer, UT_IPC_BUFFER_SIZE, 0)`: either `chunk.length` bytes were
stored in `mBuffer` (an empty chunk is end-of-stream, return value `0`), or the call failed
with return value `-1` and the given `errno`. -/
inductive RecvResult where
  | got (chunk : List Nat)
  | fail (errno : Nat)
deriving DecidableEq, Repr

/-- The value `recv` returns. -/
def RecvResult.ret : RecvResult → Int
  | .got chunk => (chunk.length : Int)
  | .fail _ => -1

/-- The value of `errno` after `recv`; a call that succeeds leaves it alone (`0` here). -/
def RecvResult.errno : RecvResult → Nat
  | .got _ => 0
  | .fail errno => errno

/-- The bytes `recv` left in `mBuffer`. -/
def RecvResult.chunk : RecvResult → List Nat
  | .got chunk => chunk
  | .fail _ => []

/-- What the following calls of `recv` on each descriptor will return, in order. When the list
of a descriptor is used up, `recv` fails with `EWOULDBLOCK`. -/
abbrev Net := Int → List RecvResult

/-- System calls recorded in a trace. `pipe`, `socket` and `accept` are recorded when they
succeed, with the descriptors they opened. -/
inductive Syscall where
  | pipe (rd wr : Int)
  | socket (fd : Int)
  | accept (fd : Int)
  | close (fd : Int)
  | read (fd : Int)
  | write (fd : Int)
  | send (fd : Int) (data : List Nat)
  | recv (fd : Int) (ret : Int)
  | sleep (seconds : Nat)
  | free
  | join
deriving DecidableEq, Repr

/-! ## `IPCServer` -/

/-- `enum class IPCServer::RetCode` (the client's enum has the same members). -/
inductive RetCode where
  | kSuccess
  | kAlreadyStarted
  | kNotStarted
deriving DecidableEq, Repr

/-- What the server does that is visible outside: system calls and published events. -/
inductive ServerEffect where
  | sys (call : Syscall)
  | onClientConnected (fd : Int)
  | onClientDisconnected (fd : Int)
  | onDataReceived (id : Int) (data : Data) (bytes : Int)
deriving DecidableEq, Repr

/-- The members of `class IPCServer` (`server.h`), without the mutex. `mPipe` has no
initialiser in the class, so a fresh object holds arbitrary values there. -/
structure IPCServer where
  mRunning : Bool
  mPipe : Int × Int
  mSfd : Int
  mServerName : String
  mThread : Option Nat
  mPfds : List pollfd
  mBuffer : Option Nat
deriving DecidableEq, Repr

/-- A default-constructed server; `pipe0`, `pipe1` stand for the uninitialised `mPipe`. -/
def IPCServer.fresh (pipe0 pipe1 : Int) : IPCServer :=
  { mRunning := false, mPipe := (pipe0, pipe1), mSfd := 0, mServerName := "",
    mThread := none, mPfds := [], mBuffer := none }

/-- State of the `while (true)` receive loop of `IPCServer::loop` when it is left. -/
structure Drain where
  mPfds : List pollfd
  i : Nat
  data : Data
  bytes : Int
  rest : List RecvResult
  trace : List ServerEffect

/-- The `while (true)` loop of `IPCServer::loop` (server.cpp 271-287) on `mPfds[i]`, reading
the pending results of `recv` on that descriptor. -/
def IPCServer.recvLoop (mPfds : List pollfd) (i : Nat) :
    Data → Int → List RecvResult → Drain
  | data, bytes, [] =>
      -- recv returns -1: break
      ⟨mPfds, i, data, bytes, [], [.sys (.recv (mPfds.getD i default).fd (-1))]⟩
  | data, bytes, r :: rest =>
      let fd := (mPfds.getD i default).fd
      let ret := r.ret
      if ret > 0 then
        let data := realloc data (bytes + ret).toNat
        let data := memcpy data bytes.toNat r.chunk
        let d := IPCServer.recvLoop mPfds i data (bytes + ret) rest
        { d with trace := .sys (.recv fd ret) :: d.trace }
      else if ret = 0 then
        ⟨mPfds.eraseIdx i, i - 1, data, bytes, rest,
          [.sys (.recv fd ret), .onClientDisconnected fd, .sys (.close fd)]⟩
      else
        -- ret == -1, the only negative value of `RecvResult.ret`: break
        ⟨mPfds, i, data, bytes, rest, [.sys (.recv fd ret)]⟩

/-- State of the data scan of `IPCServer::loop` between two iterations of its `for`. -/
structure Scan where
  mPfds : List pollfd
  i : Nat
  net : Net
  trace : List ServerEffect

/-- One iteration of `for (size_t i = 2; i < mPfds.size(); ++i)` without the `++i`
(server.cpp 264-291). The test `!mPfds[i].revents & POLLIN` is `(!revents) & POLLIN`. -/
def IPCServer.scanBody (mPfds : List pollfd) (i : Nat) (net : Net) : Scan :=
  let p := mPfds.getD i default
  if lnot p.revents &&& POLLIN ≠ 0 then
    ⟨mPfds, i, net, []⟩
  else
    let mPfds := mPfds.set i { p with revents := 0 }
    let d := IPCServer.recvLoop mPfds i .nullptr 0 (net p.fd)
    let net := Function.update net p.fd d.rest
    let flush : List ServerEffect :=
      if d.bytes ≠ 0 then [.onDataReceived (d.mPfds.getD d.i default).fd d.data d.bytes] else []
    ⟨d.mPfds, d.i, net, d.trace ++ flush⟩

/-- The `for` loop of the data scan, started at cursor `i`; `fuel` bounds the number of
iterations (`IPCServer.scan_exit`: the fuel given by `IPCServer.scan` reaches the exit). -/
def IPCServer.scanLoop : Nat → List pollfd → Nat → Net → Scan
  | 0, mPfds, i, net => ⟨mPfds, i, net, []⟩
  | fuel + 1, mPfds, i, net =>
      if i < mPfds.length then
        let b := IPCServer.scanBody mPfds i net
        let r := IPCServer.scanLoop fuel b.mPfds (b.i + 1) b.net
        { r with trace := b.trace ++ r.trace }
      else ⟨mPfds, i, net, []⟩

/-- The data scan of one wake-up: `for (size_t i = 2; i < mPfds.size(); ++i)`. -/
def IPCServer.scan (mPfds : List pollfd) (net : Net) : Scan :=
  IPCServer.scanLoop (mPfds.length - 2) mPfds 2 net

/-- Results of the system calls of one pass through the body of `while (mRunning)`. -/
structure WakeEnv where
  /-- return value of `poll` -/
  pollRet : Int
  /-- `errno` after `poll` -/
  errno : Nat
  /-- the `revents` that `poll` stores in entry `k` of `mPfds` -/
  revents : Nat → Nat
  /-- return value of `accept` -/
  cfd : Int
  /-- return value of `fcntl(cfd, F_GETFL, nullptr)` -/
  getfl : Int
  /-- return value of `fcntl(cfd, F_SETFL, ...)` -/
  setfl : Int
  /-- the uninitialised `revents` of the local `pollfd pfd` pushed for a new connection -/
  pfdRevents : Nat
  /-- pending results of `recv` -/
  net : Net

/-- The `revents` fields written by `poll`, entry `k` being the first of the list. -/
def pollStore (revents : Nat → Nat) : Nat → List pollfd → List pollfd
  | _, [] => []
  | k, p :: ps => { p with revents := revents k } :: pollStore revents (k + 1) ps

/-- One pass through the body of `while (mRunning)` in `IPCServer::loop` (server.cpp 224-301).
`Except.error` is the `throw` of line 300. -/
def IPCServer.loopBody (env : WakeEnv) (s : IPCServer) :
    Except String (IPCServer × List ServerEffect) :=
  let ret := env.pollRet
  if ret > 0 then
    let mPfds := pollStore env.revents 0 s.mPfds
    -- software interrupt by pipe
    let p0 := mPfds.getD 0 default
    let pipeIn := p0.revents &&& POLLIN ≠ 0
    let mPfds := if pipeIn then mPfds.set 0 { p0 with revents := 0 } else mPfds
    let t0 : List ServerEffect := if pipeIn then [.sys (.read s.mPipe.1)] else []
    -- new connection accept
    let p1 := mPfds.getD 1 default
    if p1.revents &&& POLLIN ≠ 0 then
      let mPfds := mPfds.set 1 { p1 with revents := 0 }
      let cfd := env.cfd
      if cfd = -1 then
        .ok ({ s with mPfds := mPfds }, t0)
      else if env.getfl = -1 then
        .ok ({ s with mPfds := mPfds }, t0 ++ [.sys (.accept cfd), .sys (.close cfd)])
      else if env.setfl = -1 then
        .ok ({ s with mPfds := mPfds }, t0 ++ [.sys (.accept cfd), .sys (.close cfd)])
      else
        let mPfds := mPfds ++ [pollfd.mk cfd POLLIN env.pfdRevents]
        let r := IPCServer.scan mPfds env.net
        .ok ({ s with mPfds := r.mPfds },
          t0 ++ [.sys (.accept cfd), .onClientConnected cfd] ++ r.trace)
    else
      let r := IPCServer.scan mPfds env.net
      .ok ({ s with mPfds := r.mPfds }, t0 ++ r.trace)
  else if ret = 0 then
    -- no events: poll has stored the revents, continue
    .ok ({ s with mPfds := pollStore env.revents 0 s.mPfds }, [])
  else if ret = -1 then
    if env.errno = EINTR then .ok (s, [])
    else .error "poll(...) failed"
  else .ok (s, [])

/-- Results of the system calls of `IPCServer::start`. -/
structure StartEnv where
  /-- result of `malloc`, `none` for `NULL` -/
  malloc : Option Nat
  /-- return value of `pipe` and the descriptors it stores on success -/
  pipeRet : Int
  pipeFds : Int × Int
  /-- `fcntl(mPipe[0], F_GETFL)` and `fcntl(mPipe[0], F_SETFL)` -/
  pipeGetfl : Int
  pipeSetfl : Int
  /-- return value of `socket` -/
  socket : Int
  /-- return value and `errno` of `remove` -/
  removeRet : Int
  removeErrno : Nat
  bindRet : Int
  listenRet : Int
  /-- `fcntl(mSfd, F_GETFL)` and `fcntl(mSfd, F_SETFL)` -/
  sockGetfl : Int
  sockSetfl : Int
  /-- the uninitialised `revents` of the local `pollfd pfd` -/
  pfdRevents : Nat
  /-- the handle returned by `new std::thread` -/
  thread : Nat

/-- What a public operation returns (`Except.error` is a thrown `std::runtime_error`), the
members after it, and what it did. -/
structure Outcome (σ ε : Type) where
  result : Except String RetCode
  state : σ
  trace : List ε

/-- The unwinding shared by the failure branches of `IPCServer::start` after `socket`
succeeded (server.cpp 114-121 and its copies). -/
def IPCServer.unwind (msg : String) (s : IPCServer) (done : List ServerEffect) :
    Outcome IPCServer ServerEffect :=
  ⟨.error msg, { s with mSfd := 0, mPipe := (0, 0), mBuffer := none },
    done ++ [.sys (.close s.mSfd), .sys (.close s.mPipe.1), .sys (.close s.mPipe.2), .sys .free]⟩

/-- The unwinding of the failure branches of `IPCServer::start` between `pipe` and
`socket` (server.cpp 73-78 and its copies). -/
def IPCServer.unwindPipe (msg : String) (s : IPCServer) (done : List ServerEffect) :
    Outcome IPCServer ServerEffect :=
  ⟨.error msg, { s with mPipe := (0, 0), mBuffer := none },
    done ++ [.sys (.close s.mPipe.1), .sys (.close s.mPipe.2), .sys .free]⟩

/-- `IPCServer::start` (server.cpp 48-187). -/
def IPCServer.start (name : String) (env : StartEnv) (s : IPCServer) :
    Outcome IPCServer ServerEffect :=
  if s.mRunning then ⟨.ok .kAlreadyStarted, s, []⟩
  else
    let s := { s with mServerName := UT_IPC_SOCKET_PATH ++ name }
    -- allocate buffer
    let s := { s with mBuffer := env.malloc }
    if s.mBuffer = none then ⟨.error "malloc(...) failed", s, []⟩
    -- initialize pipes
    else if env.pipeRet = -1 then
      ⟨.error "pipe(...) failed", { s with mBuffer := none }, [.sys .free]⟩
    else
      let s := { s with mPipe := env.pipeFds }
      let t : List ServerEffect := [.sys (.pipe s.mPipe.1 s.mPipe.2)]
      if env.pipeGetfl = -1 then
        IPCServer.unwindPipe "fcntl(..., F_GETFL, ...) failed" s t
      else if env.pipeSetfl = -1 then
        IPCServer.unwindPipe "fcntl(..., F_SETFL, ...) failed" s t
      else
        let s := { s with mPfds := s.mPfds ++ [pollfd.mk s.mPipe.1 POLLIN env.pfdRevents] }
        -- initialize socket
        let s := { s with mSfd := env.socket }
        if s.mSfd = -1 then
          IPCServer.unwindPipe "socket(...) failed" s t
        else
          let t := t ++ [.sys (.socket s.mSfd)]
          if env.removeRet = -1 ∧ env.removeErrno ≠ ENOENT then
            IPCServer.unwind "remove(...) failed" s t
          else if env.bindRet = -1 then
            IPCServer.unwind "bind(...) failed" s t
          else if env.listenRet = -1 then
            IPCServer.unwind "listen(...) failed" s t
          else if env.sockGetfl = -1 then
            IPCServer.unwind "fcntl(..., F_GETFL, ...) failed" s t
          else if env.sockSetfl = -1 then
            IPCServer.unwind "fcntl(..., F_SETFL, ...) failed" s t
          else
            let s := { s with mPfds := s.mPfds ++ [pollfd.mk s.mSfd POLLIN env.pfdRevents] }
            ⟨.ok .kSuccess, { s with mRunning := true, mThread := some env.thread }, t⟩

/-- `IPCServer::stop` (server.cpp 189-217). `mThread->join()` returns when the loop thread
has left `while (mRunning)`: the thread finishes the pass it is in (`inflight`, `none` when it
is at the loop test) and then reads `mRunning = false`. A pass that throws ends the process. -/
def IPCServer.stop (inflight : Option WakeEnv) (s : IPCServer) :
    Outcome IPCServer ServerEffect :=
  if !s.mRunning then ⟨.ok .kNotStarted, s, []⟩
  else
    let s := { s with mRunning := false }
    let t : List ServerEffect := [.sys (.write s.mPipe.2)]
    let joined : Except String (IPCServer × List ServerEffect) :=
      match inflight with
      | none => .ok (s, [])
      | some env => IPCServer.loopBody env s
    match joined with
    | .error msg => ⟨.error msg, s, t⟩
    | .ok (s, tl) =>
      let t := t ++ tl ++ [.sys .join]
      let s := { s with mThread := none }
      let t := t ++ s.mPfds.map (fun p => ServerEffect.sys (.close p.fd))
      let s := { s with mPfds := [] }
      let t := t ++ [.sys (.close s.mSfd), .sys (.close s.mPipe.1), .sys (.close s.mPipe.2),
        .sys .free]
      ⟨.ok .kSuccess, { s with mSfd := 0, mPipe := (0, 0), mBuffer := none }, t⟩

/-- `IPCServer::send` (server.cpp 44-46). -/
def IPCServer.send (to_ : Int) (data : List Nat) (_s : IPCServer) : List ServerEffect :=
  [.sys (.send to_ data)]

/-! ## `IPCClient` -/

/-- What the client does that is visible outside: system calls and published events. -/
inductive ClientEffect where
  | sys (call : Syscall)
  | onReadyChanged (ready : Bool)
  | onDataReceived (data : Data) (bytes : Int)
deriving DecidableEq, Repr

/-- The members of `class IPCClient` (`client.h`), without the mutex. `mPipe` and `mPfds`
have no initialiser in the class. -/
structure IPCClient where
  mReady : Bool
  mRunning : Bool
  mPipe : Int × Int
  mSfd : Int
  mPfds : pollfd × pollfd
  mServerPath : String
  mThread : Option Nat
  mReconnectTimeout : Nat
  mBuffer : Option Nat
deriving DecidableEq, Repr

/-- A default-constructed client; the arguments stand for the uninitialised members. -/
def IPCClient.fresh (mPipe : Int × Int) (mPfds : pollfd × pollfd) : IPCClient :=
  { mReady := false, mRunning := false, mPipe := mPipe, mSfd := 0, mPfds := mPfds,
    mServerPath := "", mThread := none, mReconnectTimeout := UT_IPC_RECONNECT_TIMEOUT,
    mBuffer := none }

/-- Where the thread running `IPCClient::loop` stands: there is no thread, it is in the outer
loop before `socket` (client.cpp 144), it is in the inner loop before `poll` (client.cpp 169),
`loop` has returned, or an exception has left `loop`. -/
inductive LoopAt where
  | idle
  | connect
  | poll
  | returned
  | terminated (msg : String)
deriving DecidableEq, Repr

/-- A client object together with its loop thread. -/
structure ClientSys where
  obj : IPCClient
  thread : LoopAt
deriving DecidableEq, Repr

/-- State of the `while (true)` receive loop of `IPCClient::loop` when it is left. -/
structure ClientDrain where
  obj : IPCClient
  data : Data
  bytesRead : Int
  trace : List ClientEffect

/-- The `while (true)` loop of `IPCClient::loop` (client.cpp 182-202), reading the pending
results of `recv` on `mPfds[1].fd`. -/
def IPCClient.recvLoop (c : IPCClient) : Data → Int → List RecvResult → ClientDrain
  | data, bytesRead, [] =>
      -- recv returns -1 with errno = EWOULDBLOCK: break
      ⟨c, data, bytesRead, [.sys (.recv c.mPfds.2.fd (-1))]⟩
  | data, bytesRead, r :: rest =>
      let ret := r.ret
      if ret > 0 then
        let data := realloc data (bytesRead + ret).toNat
        let bytesRead := bytesRead + ret
        let data := memcpy data bytesRead.toNat r.chunk
        let d := IPCClient.recvLoop c data bytesRead rest
        { d with trace := .sys (.recv c.mPfds.2.fd ret) :: d.trace }
      else if ret = 0 then
        ⟨{ c with mSfd := 0, mReady := false }, data, bytesRead,
          [.sys (.recv c.mPfds.2.fd ret), .sys (.close c.mSfd), .onReadyChanged false]⟩
      else
        -- ret == -1, the only negative value of `RecvResult.ret`
        if r.errno ≠ EWOULDBLOCK then
          ⟨{ c with mSfd := 0, mReady := false }, data, bytesRead,
            [.sys (.recv c.mPfds.2.fd ret), .sys (.close c.mSfd), .onReadyChanged false]⟩
        else ⟨c, data, bytesRead, [.sys (.recv c.mPfds.2.fd ret)]⟩

/-- Results of the system calls of one pass of the loop thread: one attempt to connect
(client.cpp 144-167) or one pass through the body of `while (mReady)` (client.cpp 169-216). -/
structure LoopEnv where
  /-- return values of `socket`, `connect`, `fcntl(F_GETFL)`, `fcntl(F_SETFL)` -/
  socket : Int
  connectRet : Int
  getfl : Int
  setfl : Int
  /-- return value of `poll`, `errno` after it, and the `revents` it stores -/
  pollRet : Int
  errno : Nat
  revents0 : Nat
  revents1 : Nat
  /-- pending results of `recv` on the connection -/
  recvs : List RecvResult

/-- The test of `while (mRunning)` (client.cpp 143). -/
def IPCClient.outerTest (c : IPCClient) : LoopAt :=
  if c.mRunning then .connect else .returned

/-- The test of `while (mReady)` (client.cpp 168); leaving it leads to the outer test. -/
def IPCClient.innerTest (c : IPCClient) : LoopAt :=
  if c.mReady then .poll else IPCClient.outerTest c

/-- One connection attempt, client.cpp 144-167, followed by the loop test it leads to. -/
def IPCClient.connectPass (env : LoopEnv) (c : IPCClient) : ClientSys × List ClientEffect :=
  let c := { c with mSfd := env.socket }
  if c.mSfd = -1 then (⟨c, .terminated "socket(...) failed"⟩, [])
  else
    let t : List ClientEffect := [.sys (.socket c.mSfd)]
    if env.connectRet = -1 then
      (⟨c, IPCClient.outerTest c⟩, t ++ [.sys (.sleep c.mReconnectTimeout)])
    else if env.getfl = -1 then (⟨c, .terminated "fcntl(..., F_GETFL, ...) failed"⟩, t)
    else if env.setfl = -1 then (⟨c, .terminated "fcntl(..., F_SETFL, ...) failed"⟩, t)
    else
      let c := { c with mPfds := (c.mPfds.1, { c.mPfds.2 with fd := c.mSfd }) }
      let c := { c with mReady := true }
      (⟨c, IPCClient.innerTest c⟩, t ++ [.onReadyChanged true])

/-- One pass through the body of `while (mReady)`, client.cpp 169-216, followed by the loop
test it leads to. -/
def IPCClient.pollPass (env : LoopEnv) (c : IPCClient) : ClientSys × List ClientEffect :=
  let ret := env.pollRet
  -- poll stores the revents unless it fails
  let c := if ret ≥ 0 then
      { c with mPfds := ({ c.mPfds.1 with revents := env.revents0 },
                         { c.mPfds.2 with revents := env.revents1 }) }
    else c
  if ret > 0 then
    let pipeIn := c.mPfds.1.revents &&& POLLIN ≠ 0
    let c := if pipeIn then { c with mPfds := ({ c.mPfds.1 with revents := 0 }, c.mPfds.2) }
             else c
    let t0 : List ClientEffect := if pipeIn then [.sys (.read c.mPipe.1)] else []
    if c.mPfds.2.revents &&& POLLIN ≠ 0 then
      let c := { c with mPfds := (c.mPfds.1, { c.mPfds.2 with revents := 0 }) }
      let d := IPCClient.recvLoop c .nullptr 0 env.recvs
      let flush : List ClientEffect :=
        if d.bytesRead ≠ 0 then [.onDataReceived d.data d.bytesRead] else []
      (⟨d.obj, IPCClient.innerTest d.obj⟩, t0 ++ d.trace ++ flush)
    else (⟨c, IPCClient.innerTest c⟩, t0)
  else if ret = 0 then (⟨c, IPCClient.innerTest c⟩, [])
  else if ret = -1 then
    if env.errno = EINTR then (⟨c, IPCClient.innerTest c⟩, [])
    else (⟨c, .terminated "poll(...) failed"⟩, [])
  else (⟨c, IPCClient.innerTest c⟩, [])

/-- One pass of the loop thread from where it stands. -/
def ClientSys.pass (env : LoopEnv) (w : ClientSys) : ClientSys × List ClientEffect :=
  match w.thread with
  | .connect => IPCClient.connectPass env w.obj
  | .poll => IPCClient.pollPass env w.obj
  | _ => (w, [])

/-- The loop thread runs one pass per element of `envs` until `loop` returns or is left by
an exception. -/
def ClientSys.passes : List LoopEnv → ClientSys → ClientSys × List ClientEffect
  | [], w => (w, [])
  | env :: envs, w =>
      match w.thread with
      | .connect | .poll =>
          let r := w.pass env
          let r2 := ClientSys.passes envs r.1
          (r2.1, r.2 ++ r2.2)
      | _ => (w, [])

/-- Results of the system calls of `IPCClient::start`. -/
structure ClientStartEnv where
  malloc : Option Nat
  pipeRet : Int
  pipeFds : Int × Int
  pipeGetfl : Int
  pipeSetfl : Int
  thread : Nat

/-- `IPCClient::start` (client.cpp 44-98). The new thread enters `loop` at the outer test. -/
def IPCClient.start (server : String) (env : ClientStartEnv) (w : ClientSys) :
    Outcome ClientSys ClientEffect :=
  let c := w.obj
  if c.mRunning then ⟨.ok .kAlreadyStarted, w, []⟩
  else
    let c := { c with mServerPath := UT_IPC_SOCKET_PATH ++ server }
    let c := { c with mBuffer := env.malloc }
    if c.mBuffer = none then ⟨.error "malloc(...) failed", { w with obj := c }, []⟩
    else if env.pipeRet = -1 then
      ⟨.error "pipe(...) failed", { w with obj := { c with mBuffer := none } }, [.sys .free]⟩
    else
      let c := { c with mPipe := env.pipeFds }
      let t : List ClientEffect := [.sys (.pipe c.mPipe.1 c.mPipe.2)]
      let undo : List ClientEffect :=
        t ++ [.sys (.close c.mPipe.1), .sys (.close c.mPipe.2), .sys .free]
      if env.pipeGetfl = -1 then
        ⟨.error "fcntl(..., F_GETFL, ...) failed",
          { w with obj := { c with mPipe := (0, 0), mBuffer := none } }, undo⟩
      else if env.pipeSetfl = -1 then
        ⟨.error "fcntl(..., F_SETFL, ...) failed",
          { w with obj := { c with mPipe := (0, 0), mBuffer := none } }, undo⟩
      else
        let c := { c with mPfds := ({ c.mPfds.1 with fd := c.mPipe.1, events := POLLIN },
                                    { c.mPfds.2 with events := POLLIN }) }
        let c := { c with mRunning := true, mThread := some env.thread }
        ⟨.ok .kSuccess, ⟨c, IPCClient.outerTest c⟩, t⟩

/-- `IPCClient::stop` (client.cpp 100-124). `mThread->join()` returns when `loop` has
returned; until then the loop thread runs the passes of `envs`. A thread that is still inside
`loop` when `envs` is used up stays blocked in `poll`, and `join` does not return. -/
def IPCClient.stop (envs : List LoopEnv) (w : ClientSys) : Outcome ClientSys ClientEffect :=
  let c := w.obj
  if !c.mRunning then ⟨.ok .kNotStarted, w, []⟩
  else
    let c := { c with mRunning := false }
    let c := { c with mReady := false }
    let t : List ClientEffect := [.onReadyChanged false, .sys (.write c.mPipe.2)]
    let r := ClientSys.passes envs ⟨c, w.thread⟩
    let t := t ++ r.2
    match r.1.thread with
    | .returned =>
        let c := r.1.obj
        let t := t ++ [.sys .join]
        let c := { c with mThread := none }
        let t := t ++ [.sys (.close c.mPipe.1), .sys (.close c.mPipe.2)]
        let c := { c with mPipe := (0, 0) }
        let t := t ++ [.sys .free]
        let c := { c with mBuffer := none }
        ⟨.ok .kSuccess, ⟨c, .idle⟩, t⟩
    | .terminated msg => ⟨.error msg, r.1, t⟩
    | _ => ⟨.error "join() does not return", r.1, t⟩

/-- `IPCClient::send` (client.cpp 126-128). -/
def IPCClient.send (data : List Nat) (c : IPCClient) : List ClientEffect :=
  [.sys (.send c.mSfd data)]

/-- An operation on a client and its loop thread: a public call or one pass of the thread. -/
inductive ClientOp where
  | start (server : String) (env : ClientStartEnv)
  | stop (envs : List LoopEnv)
  | send (data : List Nat)
  | pass (env : LoopEnv)

/-- Runs one operation and returns the new state with what the operation did. -/
def ClientSys.step (w : ClientSys) : ClientOp → ClientSys × List ClientEffect
  | .start server env => let r := IPCClient.start server env w; (r.state, r.trace)
  | .stop envs => let r := IPCClient.stop envs w; (r.state, r.trace)
  | .send data => (w, IPCClient.send data w.obj)
  | .pass env => w.pass env

/-- Runs a sequence of operations and returns the final state with the whole trace. -/
def ClientSys.run : List ClientOp → ClientSys → ClientSys × List ClientEffect
  | [], w => (w, [])
  | op :: ops, w =>
      let r := w.step op
      let r2 := ClientSys.run ops r.1
      (r2.1, r.2 ++ r2.2)

/-- The values published through `onReadyChanged`, in order. -/
def readyTrace : List ClientEffect → List Bool
  | [] => []
  | .onReadyChanged b :: t => b :: readyTrace t
  | _ :: t => readyTrace t

/-- The descriptors opened and not yet closed after a trace, starting from `opened`. -/
def openAfter (opened : List Int) : List Syscall → List Int
  | [] => opened
  | .pipe rd wr :: t => openAfter (wr :: rd :: opened) t
  | .socket fd :: t => openAfter (fd :: opened) t
  | .accept fd :: t => openAfter (fd :: opened) t
  | .close fd :: t => openAfter (opened.erase fd) t
  | _ :: t => openAfter opened t

/-- The system calls of a client trace. -/
def ClientEffect.calls : List ClientEffect → List Syscall
  | [] => []
  | .sys call :: t => call :: ClientEffect.calls t
  | _ :: t => ClientEffect.calls t

/-- The system calls of a server trace. -/
def ServerEffect.calls : List ServerEffect → List Syscall
  | [] => []
  | .sys call :: t => call :: ServerEffect.calls t
  | _ :: t => ServerEffect.calls t

/-! ## Vocabulary of the properties -/

/-- The block that holds exactly the bytes `bs`; the null pointer when nothing was stored. -/
def Data.ofBytes (bs : List Nat) : Data :=
  if bs = [] then .nullptr else .block (bs.map some)

/-- The events of a server trace: what is published, without the system calls. -/
def ServerEffect.events : List ServerEffect → List ServerEffect
  | [] => []
  | .sys _ :: t => ServerEffect.events t
  | e :: t => e :: ServerEffect.events t

/-- A server with its wake pipe on 3, its listening socket on 4 and one client on 5 that
is reported readable. -/
def oneClient : List pollfd := [⟨3, POLLIN, 0⟩, ⟨4, POLLIN, 0⟩, ⟨5, POLLIN, POLLIN⟩]

/-- The bytes of "hello" arrive on descriptor 5 in two reads, then the socket would block. -/
def helloNet : Net := fun fd =>
  if fd = 5 then [.got [104, 101], .got [108, 108, 111], .fail EWOULDBLOCK] else []

/-- Whether the receive loop, reading these results, ends on end-of-stream: the first result
that is not a successful read of at least one byte is a return value of `0`. -/
def hitsEof : List RecvResult → Bool
  | [] => false
  | r :: rest => if r.ret > 0 then hitsEof rest else decide (r.ret = 0)

/-- How many times a trace finishes a drain of `fd`: every pass through the receive loop ends
with exactly one `recv` that returns `0` or `-1`. -/
def drains (fd : Int) : List ServerEffect → Nat
  | [] => 0
  | .sys (.recv f ret) :: t => (if f = fd ∧ ret ≤ 0 then 1 else 0) + drains fd t
  | _ :: t => drains fd t

/-- The registration of `p` after it was handled: `revents` is reset. -/
def pollfd.cleared (p : pollfd) : pollfd := { p with revents := 0 }

/-- Whether the scan erases the registration `p`: it drains `p` and the drain ends on
end-of-stream. -/
def erased (net : Net) (p : pollfd) : Bool :=
  decide (p.revents ≠ 0) && hitsEof (net p.fd)

/-- Four clients behind the wake pipe (3) and the listening socket (4): 5 and 6 are readable,
7 reports a hang-up, 8 reports nothing. -/
def fourClients : List pollfd :=
  [⟨3, POLLIN, POLLIN⟩, ⟨4, POLLIN, 0⟩, ⟨5, POLLIN, POLLIN⟩, ⟨6, POLLIN, POLLIN⟩,
    ⟨7, POLLIN, POLLHUP⟩, ⟨8, POLLIN, 0⟩]

/-- Descriptor 5 delivers two chunks, 6 delivers one byte and is closed by its peer, 7 is
closed by its peer, nothing is pending elsewhere. -/
def fourNet : Net := fun fd =>
  if fd = 5 then [.got [104, 101], .got [108, 108, 111]]
  else if fd = 6 then [.got [7], .got []]
  else if fd = 7 then [.got []]
  else []

/-- Whether an effect is an `onDataReceived` event. -/
def ServerEffect.isData : ServerEffect → Bool
  | .onDataReceived _ _ _ => true
  | _ => false

/-- Whether an effect is an `onDataReceived` event whose id is `fd`. -/
def ServerEffect.isDataFor (fd : Int) : ServerEffect → Bool
  | .onDataReceived id _ _ => decide (id = fd)
  | _ => false

/-- Whether an effect is the `onClientDisconnected` event of `fd`. -/
def ServerEffect.isDisconnectOf (fd : Int) : ServerEffect → Bool
  | .onClientDisconnected id => decide (id = fd)
  | _ => false

/-- Whether some effect satisfying `p` occurs in the trace before some effect satisfying `q`. -/
def precedes (p q : ServerEffect → Bool) : List ServerEffect → Bool
  | [] => false
  | e :: t => (p e && t.any q) || precedes p q t

/-- Descriptor 5 delivers the bytes 1, 2, 3 and is then closed by its peer. -/
def closeNet : Net := fun fd => if fd = 5 then [.got [1, 2, 3], .got []] else []

/-- The first `recv` on descriptor 5 fails with the given `errno`. -/
def failNet (errno : Nat) : Net := fun fd => if fd = 5 then [.fail errno] else []

/-- A running server: wake pipe 3/9, listening socket 4, clients 5 and 6. -/
def runningServer : IPCServer :=
  { mRunning := true, mPipe := (3, 9), mSfd := 4, mServerName := "/tmp/ut.ipc.chat",
    mThread := some 1, mPfds := [⟨3, POLLIN, 0⟩, ⟨4, POLLIN, 0⟩, ⟨5, POLLIN, 0⟩, ⟨6, POLLIN, 0⟩],
    mBuffer := some 1 }

/-- A running client whose connection on descriptor 5 is established; wake pipe 3/4. -/
def connectedClient : ClientSys :=
  ⟨{ mReady := true, mRunning := true, mPipe := (3, 4), mSfd := 5,
     mPfds := (⟨3, POLLIN, 0⟩, ⟨5, POLLIN, 0⟩), mServerPath := "/tmp/ut.ipc.chat",
     mThread := some 1, mReconnectTimeout := UT_IPC_RECONNECT_TIMEOUT, mBuffer := some 1 },
   .poll⟩

/-- A client that was never started. -/
def idleClient : ClientSys :=
  ⟨IPCClient.fresh (0, 0) (⟨0, 0, 0⟩, ⟨0, 0, 0⟩), .idle⟩

/-- Every system call of `IPCServer::start` succeeds: pipe 3/9, socket 4. -/
def startOk : StartEnv :=
  { malloc := some 1, pipeRet := 0, pipeFds := (3, 9), pipeGetfl := 0, pipeSetfl := 0,
    socket := 4, removeRet := 0, removeErrno := 0, bindRet := 0, listenRet := 0,
    sockGetfl := 0, sockSetfl := 0, pfdRevents := 0, thread := 1 }

/-- Every system call of `IPCClient::start` succeeds: pipe 3/4. -/
def clientStartOk : ClientStartEnv :=
  { malloc := some 1, pipeRet := 0, pipeFds := (3, 4), pipeGetfl := 0, pipeSetfl := 0,
    thread := 1 }

/-- While `stop` waits in `join`, the loop thread finishes a pass in which `poll` reports the
wake pipe, a pending connection and client 5; the new connection is 7, and client 5 is closed
by its peer. -/
def lastPass : WakeEnv :=
  { pollRet := 3, errno := 0, revents := fun k => if k = 3 then 0 else POLLIN, cfd := 7,
    getfl := 0, setfl := 0, pfdRevents := 0,
    net := fun fd => if fd = 5 then [.got []] else [] }

/-- `socket` returns 5 and `connect` succeeds. -/
def connectOk : LoopEnv :=
  { socket := 5, connectRet := 0, getfl := 0, setfl := 0,
    pollRet := 0, errno := 0, revents0 := 0, revents1 := 0, recvs := [] }

/-- `socket` returns 5 and `connect` fails (no server is listening). -/
def connectFails : LoopEnv :=
  { socket := 5, connectRet := -1, getfl := 0, setfl := 0,
    pollRet := 0, errno := 0, revents0 := 0, revents1 := 0, recvs := [] }

/-- `poll` reports the connection readable and `recv` returns 0: the server has closed. -/
def peerCloses : LoopEnv :=
  { socket := 5, connectRet := 0, getfl := 0, setfl := 0,
    pollRet := 1, errno := 0, revents0 := 0, revents1 := POLLIN, recvs := [.got []] }

/-- `poll` reports the connection readable and `recv` returns the bytes 1, 2, 3. -/
def threeBytes : LoopEnv :=
  { socket := 5, connectRet := 0, getfl := 0, setfl := 0,
    pollRet := 1, errno := 0, revents0 := 0, revents1 := POLLIN, recvs := [.got [1, 2, 3]] }

/-- `poll` reports only the wake pipe readable. -/
def wakeOnly : LoopEnv :=
  { socket := 5, connectRet := 0, getfl := 0, setfl := 0,
    pollRet := 1, errno := 0, revents0 := POLLIN, revents1 := 0, recvs := [] }

/-- A wake-up of a server whose registrations are `oneClient`: `poll` reports one descriptor,
client 5, and the bytes of "hello" are pending in two chunks. -/
def helloWake : WakeEnv :=
  { pollRet := 1, errno := 0, revents := fun k => if k = 2 then POLLIN else 0, cfd := -1,
    getfl := 0, setfl := 0, pfdRevents := 0, net := helloNet }

/-- As `startOk`, but `bind` fails. -/
def bindFails : StartEnv := { startOk with bindRet := -1 }

/-- A server with one client on 5 for which `poll` reports only a hang-up. -/
def hangupClient : List pollfd := [⟨3, POLLIN, 0⟩, ⟨4, POLLIN, 0⟩, ⟨5, POLLIN, POLLHUP⟩]

/-- A server with one client on 5 for which `poll` reports nothing. -/
def quietClient : List pollfd := [⟨3, POLLIN, 0⟩, ⟨4, POLLIN, 0⟩, ⟨5, POLLIN, 0⟩]

/-- Nothing is pending on any descriptor. -/
def silentNet : Net := fun _ => []

/-- `socket` returns 6 and `connect` fails. -/
def connectFailsAgain : LoopEnv := { connectFails with socket := 6 }

/-- The sockets created by `socket` and not yet closed after a trace, starting from
`opened`. -/
def socketsOpen (opened : List Int) : List Syscall → List Int
  | [] => opened
  | .socket fd :: t => socketsOpen (fd :: opened) t
  | .close fd :: t => socketsOpen (opened.erase fd) t
  | _ :: t => socketsOpen opened t

/-- The `send` calls of a client trace, as descriptor and bytes. -/
def sends : List ClientEffect → List (Int × List Nat)
  | [] => []
  | .sys (.send fd data) :: t => (fd, data) :: sends t
  | _ :: t => sends t

theorem memcpy_realloc_ofBytes (bs c : List Nat) (hc : c ≠ []) :
    memcpy (realloc (Data.ofBytes bs) (bs.length + c.length)) bs.length c
      = Data.ofBytes (bs ++ c) := by
  have hne : bs ++ c ≠ [] := by simp [hc]
  by_cases hbs : bs = []
  · subst hbs
    simp [Data.ofBytes, realloc, memcpy, hc]
  · have h1 : List.take (bs.length + c.length) (List.map some bs) = List.map some bs :=
      List.take_of_length_le (by simp)
    simp [Data.ofBytes, hbs, realloc, memcpy, hc, List.take_append_eq_append_take,
      List.drop_append_eq_append_drop, h1]

theorem flatten_ne_nil (chunks : List (List Nat)) (hc : chunks ≠ [])
    (hne : ∀ c ∈ chunks, c ≠ []) : chunks.flatten ≠ [] := by
  intro h
  rw [List.flatten_eq_nil_iff] at h
  cases chunks with
  | nil => exact hc rfl
  | cons c cs => exact hne c (by simp) (h c (by simp))

/-! ## Accumulation in one drain of the server -/

theorem ServerEffect.events_append (a b : List ServerEffect) :
    ServerEffect.events (a ++ b) = ServerEffect.events a ++ ServerEffect.events b := by
  induction a with
  | nil => rfl
  | cons e t ih => cases e <;> simp [ServerEffect.events, ih]

theorem ServerEffect.events_recvs (fd : Int) (chunks : List (List Nat)) :
    ServerEffect.events
      (chunks.map (fun c => ServerEffect.sys (.recv fd (c.length : Int)))) = [] := by
  induction chunks with
  | nil => rfl
  | cons c t ih => simpa [ServerEffect.events] using ih

theorem lnot_and_POLLIN (r : Nat) : (lnot r &&& POLLIN ≠ 0) ↔ r = 0 := by
  unfold lnot POLLIN
  by_cases h : r = 0 <;> simp [h]

theorem getD_set_self (v : List pollfd) (i : Nat) (q : pollfd)
    (h : q.fd = (v.getD i default).fd) : ((v.set i q).getD i default).fd = (v.getD i default).fd := by
  by_cases hi : i < v.length
  · simp [List.getD_eq_getElem?_getD, List.getElem?_set, hi, h]
  · have : v.set i q = v := by
      apply List.set_eq_of_length_le; omega
    rw [this]

/-- A run of successful reads appends the chunks to the buffer and leaves the cursor and the
registrations alone. -/
theorem IPCServer.recvLoop_chunks (mPfds : List pollfd) (i : Nat) (chunks : List (List Nat))
    (hne : ∀ c ∈ chunks, c ≠ []) (tail : List RecvResult) (bs : List Nat) :
    IPCServer.recvLoop mPfds i (Data.ofBytes bs) (bs.length : Int)
        (chunks.map RecvResult.got ++ tail)
      = { IPCServer.recvLoop mPfds i (Data.ofBytes (bs ++ chunks.flatten))
            ((bs ++ chunks.flatten).length : Int) tail with
          trace := chunks.map
              (fun c => ServerEffect.sys (.recv (mPfds.getD i default).fd (c.length : Int)))
            ++ (IPCServer.recvLoop mPfds i (Data.ofBytes (bs ++ chunks.flatten))
                  ((bs ++ chunks.flatten).length : Int) tail).trace } := by
  induction chunks generalizing bs with
  | nil => simp
  | cons c cs ih =>
    have hc : c ≠ [] := hne c (by simp)
    have hpos : (0 : Int) < (c.length : Int) := by
      have := List.length_pos.mpr hc
      omega
    have hcs : ∀ x ∈ cs, x ≠ [] := fun x hx => hne x (by simp [hx])
    have hlen : ((bs.length : Int) + (c.length : Int)) = ((bs ++ c).length : Int) := by
      simp
    simp only [List.map_cons, List.cons_append, IPCServer.recvLoop, RecvResult.ret,
      RecvResult.chunk, gt_iff_lt, hpos, if_true]
    have h1 : ((bs.length : Int) + (c.length : Int)).toNat = bs.length + c.length := by omega
    rw [h1, Int.toNat_ofNat, memcpy_realloc_ofBytes bs c hc, hlen]
    simp only [List.append_eq]
    rw [ih hcs (bs ++ c)]
    simp [List.append_assoc]

/-- The receive loop on `chunks` followed by a failing `recv`. -/
theorem IPCServer.recvLoop_fail (mPfds : List pollfd) (i : Nat)
    (chunks : List (List Nat)) (hne : ∀ c ∈ chunks, c ≠ []) (errno : Nat)
    (later : List RecvResult) :
    IPCServer.recvLoop mPfds i .nullptr 0 (chunks.map RecvResult.got ++ .fail errno :: later)
      = ⟨mPfds, i, Data.ofBytes chunks.flatten, (chunks.flatten.length : Int), later,
          chunks.map (fun c => ServerEffect.sys
              (.recv (mPfds.getD i default).fd (c.length : Int)))
            ++ [.sys (.recv (mPfds.getD i default).fd (-1))]⟩ := by
  have key := IPCServer.recvLoop_chunks mPfds i chunks hne (.fail errno :: later) []
  simp only [List.length_nil, Nat.cast_zero, List.nil_append] at key
  have h0 : Data.ofBytes [] = Data.nullptr := rfl
  rw [h0] at key
  rw [key]
  simp [IPCServer.recvLoop, RecvResult.ret]

/-- What one iteration of the scan does on a connection whose pending reads are `chunks`
followed by a failing `recv`. -/
theorem IPCServer.scanBody_fail (mPfds : List pollfd) (i : Nat) (net : Net)
    (chunks : List (List Nat)) (errno : Nat) (later : List RecvResult)
    (hready : (mPfds.getD i default).revents ≠ 0)
    (hne : ∀ c ∈ chunks, c ≠ [])
    (hnet : net (mPfds.getD i default).fd = chunks.map RecvResult.got ++ .fail errno :: later) :
    IPCServer.scanBody mPfds i net
      = ⟨mPfds.set i { mPfds.getD i default with revents := 0 }, i,
          Function.update net (mPfds.getD i default).fd later,
          chunks.map (fun c => ServerEffect.sys
              (.recv (mPfds.getD i default).fd (c.length : Int)))
            ++ [.sys (.recv (mPfds.getD i default).fd (-1))]
            ++ (if chunks = [] then []
                else [.onDataReceived (mPfds.getD i default).fd
                  (.block (chunks.flatten.map some)) (chunks.flatten.length : Int)])⟩ := by
  have hskip : ¬ (lnot (mPfds.getD i default).revents &&& POLLIN ≠ 0) := by
    rw [lnot_and_POLLIN]; exact hready
  have hfd := getD_set_self mPfds i { mPfds.getD i default with revents := 0 } rfl
  unfold IPCServer.scanBody
  simp only [hskip, if_false, hnet, IPCServer.recvLoop_fail _ i chunks hne errno later]
  rw [hfd]
  by_cases hc : chunks = []
  · subst hc
    simp
  · have hfl := flatten_ne_nil chunks hc hne
    have hlen : ((chunks.flatten.length : Nat) : Int) ≠ 0 := by
      have := List.length_pos.mpr hfl
      omega
    rw [if_pos hlen, if_neg hc]
    simp only [Data.ofBytes, hfl, if_false]

/-- Accumulation in one drain: when the drain of a connection whose `revents` is set reads
`n` chunks of at least one byte each and then a `recv` that returns `-1`, it publishes, for
`n ≥ 1`, exactly one `onDataReceived` with the descriptor of the connection, the
concatenation of the chunks as payload and the sum of the chunk lengths as byte count, and
for `n = 0` it publishes nothing; the connection stays registered and the cursor stays. -/
theorem IPCServer.scanBody_accumulation (mPfds : List pollfd) (i : Nat) (net : Net)
    (chunks : List (List Nat)) (errno : Nat) (later : List RecvResult)
    (hready : (mPfds.getD i default).revents ≠ 0)
    (hsize : ∀ c ∈ chunks, 1 ≤ c.length)
    (hnet : net (mPfds.getD i default).fd = chunks.map RecvResult.got ++ .fail errno :: later) :
    ServerEffect.events (IPCServer.scanBody mPfds i net).trace
        = (if chunks = [] then []
           else [.onDataReceived (mPfds.getD i default).fd
                  (.block (chunks.flatten.map some)) ((chunks.map List.length).sum : Nat)])
      ∧ (IPCServer.scanBody mPfds i net).mPfds
          = mPfds.set i { mPfds.getD i default with revents := 0 }
      ∧ (IPCServer.scanBody mPfds i net).i = i := by
  have hne : ∀ c ∈ chunks, c ≠ [] := fun c hc h => by
    have := hsize c hc
    simp [h] at this
  rw [IPCServer.scanBody_fail mPfds i net chunks errno later hready hne hnet]
  refine ⟨?_, rfl, rfl⟩
  simp only [ServerEffect.events_append, ServerEffect.events_recvs, ServerEffect.events,
    List.nil_append, List.length_flatten]
  split <;> rfl

/-- The whole pass of the server loop on the "hello" wake-up publishes the five bytes once. -/
theorem IPCServer.loopBody_hello :
    (IPCServer.loopBody helloWake { runningServer with mPfds := oneClient }).map
        (fun r => ServerEffect.events r.2)
      = .ok [.onDataReceived 5 (.block [some 104, some 101, some 108, some 108, some 111]) 5] := by
  rfl

/-! ## C2: the buffer built by the client -/

theorem IPCClient.recvLoop_fault (c : IPCClient) (script : List RecvResult) :
    ∀ bytesRead, (IPCClient.recvLoop c .fault bytesRead script).data = .fault := by
  induction script with
  | nil => intro _; rfl
  | cons r rest ih =>
    intro bytesRead
    simp only [IPCClient.recvLoop]
    by_cases h1 : r.ret > 0
    · simp only [h1, if_true, realloc, memcpy]
      exact ih _
    · by_cases h2 : r.ret = 0
      · simp [h1, h2]
      · simp only [h1, h2, if_false]
        split <;> rfl

/-- C2 (evaluation at the failing input). The client adds `ret` to `bytesRead` before the
`memcpy`, so the chunk is copied to offset `bytesRead + ret` of a block of `bytesRead + ret`
bytes: whenever the first `recv` returns at least one byte the copy leaves the block, and on
the bytes 1, 2, 3 the client publishes that buffer with byte count 3. -/
theorem C2_client_copies_past_the_buffer :
    (∀ (c : IPCClient) (b : Nat) (chunk : List Nat) (rest : List RecvResult),
        (IPCClient.recvLoop c .nullptr 0 (.got (b :: chunk) :: rest)).data = .fault)
      ∧ memcpy (realloc .nullptr 3) 3 [1, 2, 3] = .fault
      ∧ (connectedClient.pass threeBytes).2
          = [.sys (.recv 5 3), .sys (.recv 5 (-1)), .onDataReceived .fault 3] := by
  refine ⟨?_, by decide, by decide⟩
  intro c b chunk rest
  have hpos : (0 : Int) < ((b :: chunk).length : Int) := by
    simp only [List.length_cons]; omega
  have hoff : ((0 : Int) + ((b :: chunk).length : Int)).toNat = (b :: chunk).length := by
    omega
  simp only [IPCClient.recvLoop, RecvResult.ret, RecvResult.chunk, gt_iff_lt, hpos, if_true,
    hoff]
  have hm : memcpy (realloc .nullptr (b :: chunk).length) (b :: chunk).length (b :: chunk)
      = .fault := by
    simp [realloc, memcpy]
  rw [hm]
  exact IPCClient.recvLoop_fault c rest _

/-! ## C3, C4: a drain that ends on end-of-stream -/

/-- C3 (evaluation at the failing input). Client 5 sends the bytes 1, 2, 3 and closes: the scan
erases its registration, steps the cursor back, and then publishes the three bytes with
`mPfds[i].fd` read at the new cursor, which is the listening socket 4, not 5. -/
theorem C3_data_event_carries_previous_descriptor :
    (IPCServer.scan oneClient closeNet).trace
      = [.sys (.recv 5 3), .sys (.recv 5 0), .onClientDisconnected 5, .sys (.close 5),
          .onDataReceived 4 (.block [some 1, some 2, some 3]) 3] := by
  decide

/-- The receive loop on `chunks` followed by end-of-stream. -/
theorem IPCServer.recvLoop_eof (mPfds : List pollfd) (i : Nat)
    (chunks : List (List Nat)) (hne : ∀ c ∈ chunks, c ≠ []) (later : List RecvResult) :
    IPCServer.recvLoop mPfds i .nullptr 0 (chunks.map RecvResult.got ++ .got [] :: later)
      = ⟨mPfds.eraseIdx i, i - 1, Data.ofBytes chunks.flatten, (chunks.flatten.length : Int),
          later,
          chunks.map (fun c => ServerEffect.sys
              (.recv (mPfds.getD i default).fd (c.length : Int)))
            ++ [.sys (.recv (mPfds.getD i default).fd 0),
                .onClientDisconnected (mPfds.getD i default).fd,
                .sys (.close (mPfds.getD i default).fd)]⟩ := by
  have key := IPCServer.recvLoop_chunks mPfds i chunks hne (.got [] :: later) []
  simp only [List.length_nil, Nat.cast_zero, List.nil_append] at key
  have h0 : Data.ofBytes [] = Data.nullptr := rfl
  rw [h0] at key
  rw [key]
  simp [IPCServer.recvLoop, RecvResult.ret]

theorem getD_eraseIdx_set_pred (v : List pollfd) (i : Nat) (q : pollfd) (hi : 1 ≤ i) :
    ((v.set i q).eraseIdx i).getD (i - 1) default = v.getD (i - 1) default := by
  have h1 : i - 1 < i := by omega
  have h2 : i ≠ i - 1 := by omega
  simp only [List.getD_eq_getElem?_getD, List.getElem?_eraseIdx, h1, if_true]
  rw [List.getElem?_set_ne h2]

/-- After a drain that read data and ended on end-of-stream, the data event carries the
descriptor of the entry before the erased one. -/
theorem IPCServer.scanBody_eof (mPfds : List pollfd) (i : Nat) (net : Net)
    (chunks : List (List Nat)) (later : List RecvResult)
    (hready : (mPfds.getD i default).revents ≠ 0)
    (hn : chunks ≠ [])
    (hne : ∀ c ∈ chunks, c ≠ [])
    (hnet : net (mPfds.getD i default).fd = chunks.map RecvResult.got ++ .got [] :: later)
    (hi : 1 ≤ i) :
    ServerEffect.events (IPCServer.scanBody mPfds i net).trace
      = [.onClientDisconnected (mPfds.getD i default).fd,
         .onDataReceived (mPfds.getD (i - 1) default).fd (.block (chunks.flatten.map some))
            (chunks.flatten.length : Int)] := by
  have hskip : ¬ (lnot (mPfds.getD i default).revents &&& POLLIN ≠ 0) := by
    rw [lnot_and_POLLIN]; exact hready
  have hfd := getD_set_self mPfds i { mPfds.getD i default with revents := 0 } rfl
  have hfl := flatten_ne_nil chunks hn hne
  have hlen : ((chunks.flatten.length : Nat) : Int) ≠ 0 := by
    have := List.length_pos.mpr hfl
    omega
  unfold IPCServer.scanBody
  simp only [hskip, if_false, hnet, IPCServer.recvLoop_eof _ i chunks hne later]
  rw [hfd, if_pos hlen, getD_eraseIdx_set_pred _ _ _ hi]
  simp only [ServerEffect.events_append, ServerEffect.events_recvs, ServerEffect.events,
    List.nil_append, Data.ofBytes, hfl, if_false]
  rfl

/-- C4 (counterexample). Client 5 sends three bytes and closes: no `onDataReceived` event at
all occurs before `onClientDisconnected 5`, the data event comes after it, and no data event
carries the id 5. -/
theorem C4_counterexample :
    precedes ServerEffect.isData (ServerEffect.isDisconnectOf 5)
        (IPCServer.scan oneClient closeNet).trace = false
      ∧ precedes (ServerEffect.isDisconnectOf 5) ServerEffect.isData
        (IPCServer.scan oneClient closeNet).trace = true
      ∧ (IPCServer.scan oneClient closeNet).trace.filter (ServerEffect.isDataFor 5) = [] := by
  decide

/-- C4 (amended). When the drain of a connection whose `revents` is set reads `n ≥ 1` chunks
of at least one byte each and then end-of-stream, the events it publishes are exactly
`onClientDisconnected` of that connection followed by one `onDataReceived` that carries the
concatenation of the chunks and the sum of their lengths: the data event comes after the
disconnect event. -/
theorem C4_data_after_disconnect (mPfds : List pollfd) (i : Nat) (net : Net)
    (chunks : List (List Nat)) (later : List RecvResult)
    (hready : (mPfds.getD i default).revents ≠ 0)
    (hn : chunks ≠ [])
    (hsize : ∀ c ∈ chunks, 1 ≤ c.length)
    (hnet : net (mPfds.getD i default).fd = chunks.map RecvResult.got ++ .got [] :: later) :
    ∃ id, ServerEffect.events (IPCServer.scanBody mPfds i net).trace
      = [.onClientDisconnected (mPfds.getD i default).fd,
         .onDataReceived id (.block (chunks.flatten.map some))
            ((chunks.map List.length).sum : Nat)] := by
  have hne : ∀ c ∈ chunks, c ≠ [] := fun c hc h => by
    have := hsize c hc
    simp [h] at this
  have hskip : ¬ (lnot (mPfds.getD i default).revents &&& POLLIN ≠ 0) := by
    rw [lnot_and_POLLIN]; exact hready
  have hfd := getD_set_self mPfds i { mPfds.getD i default with revents := 0 } rfl
  have hfl := flatten_ne_nil chunks hn hne
  have hlen : ((chunks.flatten.length : Nat) : Int) ≠ 0 := by
    have := List.length_pos.mpr hfl
    omega
  refine ⟨(((mPfds.set i { mPfds.getD i default with revents := 0 }).eraseIdx i).getD
    (i - 1) default).fd, ?_⟩
  unfold IPCServer.scanBody
  simp only [hskip, if_false, hnet, IPCServer.recvLoop_eof _ i chunks hne later]
  rw [hfd, if_pos hlen]
  simp only [ServerEffect.events_append, ServerEffect.events_recvs, ServerEffect.events,
    List.nil_append, List.length_flatten, Data.ofBytes, hfl, if_false]
  rfl

/-- Witness of C4 (amended): client 5 sends 1, 2, 3 and closes. -/
theorem C4_data_after_disconnect_witness :
    ∃ id, ServerEffect.events (IPCServer.scanBody oneClient 2 closeNet).trace
      = [.onClientDisconnected 5, .onDataReceived id (.block [some 1, some 2, some 3]) 3] :=
  C4_data_after_disconnect oneClient 2 closeNet [[1, 2, 3]] [] (by decide) (by decide)
    (by decide) rfl

/-! ## C5: the scan while registrations are erased -/

theorem drains_append (fd : Int) (a b : List ServerEffect) :
    drains fd (a ++ b) = drains fd a + drains fd b := by
  induction a with
  | nil => simp [drains]
  | cons e t ih =>
    cases e with
    | sys call => cases call <;> simp [drains, ih, Nat.add_assoc]
    | _ => simp [drains, ih]

theorem IPCServer.recvLoop_mPfds (mPfds : List pollfd) (i : Nat) (data : Data) (bytes : Int)
    (script : List RecvResult) :
    (IPCServer.recvLoop mPfds i data bytes script).mPfds
      = if hitsEof script then mPfds.eraseIdx i else mPfds := by
  induction script generalizing data bytes with
  | nil => simp [IPCServer.recvLoop, hitsEof]
  | cons r rest ih =>
    simp only [IPCServer.recvLoop, hitsEof]
    by_cases h1 : r.ret > 0
    · simp only [h1, if_true, ih]
    · by_cases h2 : r.ret = 0 <;> simp [h1, h2]

theorem IPCServer.recvLoop_i (mPfds : List pollfd) (i : Nat) (data : Data) (bytes : Int)
    (script : List RecvResult) :
    (IPCServer.recvLoop mPfds i data bytes script).i
      = if hitsEof script then i - 1 else i := by
  induction script generalizing data bytes with
  | nil => simp [IPCServer.recvLoop, hitsEof]
  | cons r rest ih =>
    simp only [IPCServer.recvLoop, hitsEof]
    by_cases h1 : r.ret > 0
    · simp only [h1, if_true, ih]
    · by_cases h2 : r.ret = 0 <;> simp [h1, h2]

theorem IPCServer.recvLoop_drains (mPfds : List pollfd) (i : Nat) (data : Data) (bytes : Int)
    (script : List RecvResult) (f : Int) :
    drains f (IPCServer.recvLoop mPfds i data bytes script).trace
      = if (mPfds.getD i default).fd = f then 1 else 0 := by
  induction script generalizing data bytes with
  | nil => simp [IPCServer.recvLoop, drains]
  | cons r rest ih =>
    simp only [IPCServer.recvLoop]
    by_cases h1 : r.ret > 0
    · have h3 : ¬ r.ret ≤ 0 := by omega
      simp only [h1, if_true, drains, ih, h3, and_false, if_false, Nat.zero_add]
    · by_cases h2 : r.ret = 0
      · simp [h1, h2, drains]
      · have h3 : r.ret ≤ 0 := by omega
        simp [h1, h2, drains, h3]

theorem IPCServer.recvLoop_close (mPfds : List pollfd) (i : Nat) (data : Data) (bytes : Int)
    (script : List RecvResult) (f : Int) :
    ServerEffect.sys (.close f) ∈ (IPCServer.recvLoop mPfds i data bytes script).trace
      ↔ (hitsEof script = true ∧ f = (mPfds.getD i default).fd) := by
  induction script generalizing data bytes with
  | nil => simp [IPCServer.recvLoop, hitsEof]
  | cons r rest ih =>
    simp only [IPCServer.recvLoop, hitsEof]
    by_cases h1 : r.ret > 0
    · simp only [h1, if_true, List.mem_cons, ih]
      simp
    · by_cases h2 : r.ret = 0 <;> simp [h1, h2]

theorem getD_append_length (pre : List pollfd) (p : pollfd) (ps : List pollfd) :
    (pre ++ p :: ps).getD pre.length default = p := by
  induction pre with
  | nil => rfl
  | cons a t ih => simpa using ih

theorem set_append_length (pre : List pollfd) (p q : pollfd) (ps : List pollfd) :
    (pre ++ p :: ps).set pre.length q = pre ++ q :: ps := by
  induction pre with
  | nil => rfl
  | cons a t ih => simp [ih]

theorem eraseIdx_append_length (pre : List pollfd) (p : pollfd) (ps : List pollfd) :
    (pre ++ p :: ps).eraseIdx pre.length = pre ++ ps := by
  induction pre with
  | nil => rfl
  | cons a t ih => simp [ih]

theorem drains_flush (f : Int) (c : Prop) [Decidable c] (e : ServerEffect)
    (he : ∀ call, e ≠ .sys call) :
    drains f (if c then [e] else []) = 0 := by
  split
  · cases e with
    | sys call => exact absurd rfl (he call)
    | _ => rfl
  · rfl

theorem IPCServer.scanBody_skip (mPfds : List pollfd) (i : Nat) (net : Net)
    (h : (mPfds.getD i default).revents = 0) :
    IPCServer.scanBody mPfds i net = ⟨mPfds, i, net, []⟩ := by
  have hskip : lnot (mPfds.getD i default).revents &&& POLLIN ≠ 0 :=
    (lnot_and_POLLIN _).2 h
  unfold IPCServer.scanBody
  exact if_pos hskip

theorem IPCServer.scanLoop_succ (fuel : Nat) (mPfds : List pollfd) (i : Nat) (net : Net)
    (h : i < mPfds.length) :
    IPCServer.scanLoop (fuel + 1) mPfds i net
      = { IPCServer.scanLoop fuel (IPCServer.scanBody mPfds i net).mPfds
            ((IPCServer.scanBody mPfds i net).i + 1) (IPCServer.scanBody mPfds i net).net with
          trace := (IPCServer.scanBody mPfds i net).trace
            ++ (IPCServer.scanLoop fuel (IPCServer.scanBody mPfds i net).mPfds
                ((IPCServer.scanBody mPfds i net).i + 1)
                (IPCServer.scanBody mPfds i net).net).trace } := by
  simp only [IPCServer.scanLoop, h, if_true]

/-- What one iteration of the scan does on the entry `p` that follows `pre`. -/
theorem IPCServer.scanBody_at (pre : List pollfd) (p : pollfd) (ps : List pollfd) (net : Net)
    (hpre : 1 ≤ pre.length) :
    (IPCServer.scanBody (pre ++ p :: ps) pre.length net).mPfds
        = (if erased net p then pre else pre ++ [p.cleared]) ++ ps
      ∧ (IPCServer.scanBody (pre ++ p :: ps) pre.length net).i + 1
        = (if erased net p then pre else pre ++ [p.cleared]).length
      ∧ (∀ f, f ≠ p.fd → (IPCServer.scanBody (pre ++ p :: ps) pre.length net).net f = net f)
      ∧ (∀ f, drains f (IPCServer.scanBody (pre ++ p :: ps) pre.length net).trace
            = if p.revents ≠ 0 ∧ p.fd = f then 1 else 0)
      ∧ (∀ f, ServerEffect.sys (.close f)
            ∈ (IPCServer.scanBody (pre ++ p :: ps) pre.length net).trace
          ↔ (erased net p = true ∧ f = p.fd)) := by
  by_cases hr : p.revents = 0
  · have hcl : p.cleared = p := by
      cases p
      simp only [pollfd.cleared]
      simp only at hr
      rw [hr]
    have hne : erased net p = false := by simp [erased, hr]
    rw [IPCServer.scanBody_skip _ _ _ (by rw [getD_append_length]; exact hr)]
    simp [hne, hcl, drains, hr]
  · have hskip : ¬ (lnot ((pre ++ p :: ps).getD pre.length default).revents &&& POLLIN ≠ 0) := by
      rw [lnot_and_POLLIN, getD_append_length]; exact hr
    have hfd : ((pre ++ p.cleared :: ps).getD pre.length default).fd = p.fd := by
      rw [getD_append_length]; rfl
    have her : erased net p = hitsEof (net p.fd) := by simp [erased, hr]
    unfold IPCServer.scanBody
    simp only [hskip, if_false]
    rw [getD_append_length, set_append_length]
    change _ ∧ _ ∧ _ ∧ _ ∧ _
    simp only [IPCServer.recvLoop_mPfds, IPCServer.recvLoop_i, her]
    refine ⟨?_, ?_, ?_, ?_, ?_⟩
    · by_cases he : hitsEof (net p.fd) = true
      · simp only [he, if_true]
        exact eraseIdx_append_length pre _ ps
      · simp only [he, if_false]
        simp [pollfd.cleared]
    · by_cases he : hitsEof (net p.fd) = true
      · simp only [he, if_true]; omega
      · simp [he]
    · intro f hf
      exact Function.update_noteq hf _ _
    · intro f
      rw [drains_append, IPCServer.recvLoop_drains, drains_flush _ _ _ (by intro c h; cases h)]
      have : ((pre ++ { p with revents := 0 } :: ps).getD pre.length default).fd = p.fd := hfd
      rw [this]
      simp [hr]
    · intro f
      rw [List.mem_append, IPCServer.recvLoop_close]
      have : ((pre ++ { p with revents := 0 } :: ps).getD pre.length default).fd = p.fd := hfd
      rw [this]
      constructor
      · rintro (h | h)
        · exact h
        · split at h <;> simp at h
      · intro h; exact Or.inl h

theorem IPCServer.scanLoop_done (fuel : Nat) (mPfds : List pollfd) (i : Nat) (net : Net)
    (h : ¬ i < mPfds.length) :
    IPCServer.scanLoop fuel mPfds i net = ⟨mPfds, i, net, []⟩ := by
  cases fuel with
  | zero => rfl
  | succ n => simp only [IPCServer.scanLoop, h, if_false]

theorem erased_congr (net net2 : Net) (p : pollfd) (ps : List pollfd)
    (hnet : ∀ f, f ≠ p.fd → net2 f = net f) (hnd : ((p :: ps).map pollfd.fd).Nodup) :
    ps.filter (fun q => !erased net2 q) = ps.filter (fun q => !erased net q) := by
  apply List.filter_congr
  intro q hq
  have hne : q.fd ≠ p.fd := by
    intro h
    rw [List.map_cons, List.nodup_cons] at hnd
    exact hnd.1 (h ▸ List.mem_map_of_mem _ hq)
  simp [erased, hnet q.fd hne]

/-- The scan from the entry that follows `pre` to the end of the registrations: the loop
reaches its exit within `ps.length` iterations, finishes one drain for every entry of `ps`
whose `revents` is not zero, keeps `pre`, and leaves every entry it does not erase. -/
theorem IPCServer.scanLoop_spec (ps : List pollfd) :
    ∀ (pre : List pollfd) (net : Net) (fuel : Nat), 1 ≤ pre.length → ps.length ≤ fuel →
      (IPCServer.scanLoop fuel (pre ++ ps) pre.length net).i
          = (IPCServer.scanLoop fuel (pre ++ ps) pre.length net).mPfds.length
      ∧ (∀ f, drains f (IPCServer.scanLoop fuel (pre ++ ps) pre.length net).trace
          = (ps.filter (fun p => decide (p.revents ≠ 0 ∧ p.fd = f))).length)
      ∧ ((ps.map pollfd.fd).Nodup →
          (IPCServer.scanLoop fuel (pre ++ ps) pre.length net).mPfds
            = pre ++ (ps.filter (fun p => !erased net p)).map pollfd.cleared)
      ∧ (∃ kept, (IPCServer.scanLoop fuel (pre ++ ps) pre.length net).mPfds = pre ++ kept
          ∧ ∀ p ∈ ps, p.fd ∈ kept.map pollfd.fd
              ∨ ServerEffect.sys (.close p.fd)
                  ∈ (IPCServer.scanLoop fuel (pre ++ ps) pre.length net).trace) := by
  induction ps with
  | nil =>
    intro pre net fuel _ _
    rw [List.append_nil, IPCServer.scanLoop_done _ _ _ _ (Nat.lt_irrefl _)]
    refine ⟨rfl, ?_, ?_, ⟨[], ?_, ?_⟩⟩
    · intro f; rfl
    · intro _; simp
    · simp
    · intro p hp; cases hp
  | cons p ps ih =>
    intro pre net fuel hpre hfuel
    obtain ⟨n, rfl⟩ : ∃ n, fuel = n + 1 := ⟨fuel - 1, by simp at hfuel; omega⟩
    have hlt : pre.length < (pre ++ p :: ps).length := by simp
    obtain ⟨hm, hi, hnet, hdr, hcl⟩ := IPCServer.scanBody_at pre p ps net hpre
    rw [IPCServer.scanLoop_succ _ _ _ _ hlt]
    simp only [hm, hi]
    have hpre2 : 1 ≤ (if erased net p then pre else pre ++ [p.cleared]).length := by
      split
      · exact hpre
      · simp
    obtain ⟨ihi, ihd, ihm, kept, ihk, ihc⟩ :=
      ih (if erased net p then pre else pre ++ [p.cleared])
        (IPCServer.scanBody (pre ++ p :: ps) pre.length net).net n hpre2
        (by simp at hfuel; omega)
    refine ⟨ihi, ?_, ?_, ?_⟩
    · intro f
      rw [drains_append, hdr, ihd, List.filter_cons]
      by_cases hc : p.revents ≠ 0 ∧ p.fd = f
      · rw [if_pos hc, if_pos (decide_eq_true hc), List.length_cons]; omega
      · rw [if_neg hc, if_neg (by simpa using hc), Nat.zero_add]
    · intro hnd
      have hnd2 : (ps.map pollfd.fd).Nodup := by
        rw [List.map_cons, List.nodup_cons] at hnd
        exact hnd.2
      rw [ihm hnd2, erased_congr net _ p ps hnet hnd, List.filter_cons]
      by_cases he : erased net p = true
      · simp [he]
      · simp [he]
    · by_cases he : erased net p = true
      · refine ⟨kept, ?_, ?_⟩
        · rw [ihk]; simp [he]
        · intro q hq
          rcases List.mem_cons.mp hq with rfl | hq
          · right
            exact List.mem_append_left _ ((hcl q.fd).2 ⟨he, rfl⟩)
          · rcases ihc q hq with h | h
            · exact Or.inl h
            · exact Or.inr (List.mem_append_right _ h)
      · refine ⟨p.cleared :: kept, ?_, ?_⟩
        · rw [ihk]; simp [he]
        · intro q hq
          rcases List.mem_cons.mp hq with rfl | hq
          · left
            simp [pollfd.cleared]
          · rcases ihc q hq with h | h
            · left
              simp only [List.map_cons, List.mem_cons]
              exact Or.inr h
            · exact Or.inr (List.mem_append_right _ h)

/-- The data scan always leaves its `for` loop: the fuel of `IPCServer.scan` is enough. -/
theorem IPCServer.scan_exit (mPfds : List pollfd) (net : Net) :
    ¬ (IPCServer.scan mPfds net).i < (IPCServer.scan mPfds net).mPfds.length := by
  by_cases hlen : 2 ≤ mPfds.length
  · have hsplit : mPfds = mPfds.take 2 ++ mPfds.drop 2 := (List.take_append_drop 2 mPfds).symm
    have htake : (mPfds.take 2).length = 2 := by simp [hlen]
    have hscan : IPCServer.scan mPfds net
        = IPCServer.scanLoop (mPfds.drop 2).length (mPfds.take 2 ++ mPfds.drop 2)
            (mPfds.take 2).length net := by
      rw [htake, ← hsplit]
      simp [IPCServer.scan]
    obtain ⟨hi, _⟩ := IPCServer.scanLoop_spec (mPfds.drop 2) (mPfds.take 2) net
      (mPfds.drop 2).length (by omega) (Nat.le_refl _)
    rw [hscan]
    omega
  · have h0 : mPfds.length - 2 = 0 := by omega
    simp only [IPCServer.scan, h0, IPCServer.scanLoop]
    omega

theorem filter_fd_length (ps : List pollfd) (hnd : (ps.map pollfd.fd).Nodup) (p : pollfd)
    (hp : p ∈ ps) :
    (ps.filter (fun q => decide (q.revents ≠ 0 ∧ q.fd = p.fd))).length
      = if p.revents ≠ 0 then 1 else 0 := by
  induction ps with
  | nil => cases hp
  | cons a t ih =>
    rw [List.map_cons, List.nodup_cons] at hnd
    rcases List.mem_cons.mp hp with rfl | hp
    · have ht : t.filter (fun q => decide (q.revents ≠ 0 ∧ q.fd = p.fd)) = [] := by
        rw [List.filter_eq_nil_iff]
        intro q hq
        have : q.fd ≠ p.fd := fun h => hnd.1 (h ▸ List.mem_map_of_mem _ hq)
        simp [this]
      rw [List.filter_cons, ht]
      by_cases hr : p.revents ≠ 0 <;> simp [hr]
    · have hne : a.fd ≠ p.fd := fun h => hnd.1 (h ▸ List.mem_map_of_mem _ hp)
      rw [List.filter_cons, if_neg (by simp [hne]), ih hnd.2 hp]

/-- C5. Scan under removal: when the registered connections `mPfds[2..]` have distinct
descriptors, the data scan of one wake-up finishes exactly one drain on every connection
that is read-ready at the start and at most one drain on any connection, however many
connections end on end-of-stream and are erased; the registrations that remain are the wake
pipe, the listening socket and, in their original order, the connections that did not hit
end-of-stream; and the loop has reached its exit. -/
theorem C5_scan_under_removal (mPfds : List pollfd) (net : Net)
    (hnd : ((mPfds.drop 2).map pollfd.fd).Nodup) :
    (∀ p ∈ mPfds.drop 2,
        (p.revents &&& POLLIN ≠ 0 → drains p.fd (IPCServer.scan mPfds net).trace = 1)
        ∧ drains p.fd (IPCServer.scan mPfds net).trace ≤ 1)
      ∧ (IPCServer.scan mPfds net).mPfds
          = mPfds.take 2
            ++ ((mPfds.drop 2).filter (fun p => !erased net p)).map pollfd.cleared
      ∧ ¬ (IPCServer.scan mPfds net).i < (IPCServer.scan mPfds net).mPfds.length := by
  by_cases hlen : 2 ≤ mPfds.length
  · have hsplit : mPfds = mPfds.take 2 ++ mPfds.drop 2 := (List.take_append_drop 2 mPfds).symm
    have htake : (mPfds.take 2).length = 2 := by simp [hlen]
    have hscan : IPCServer.scan mPfds net
        = IPCServer.scanLoop (mPfds.drop 2).length (mPfds.take 2 ++ mPfds.drop 2)
            (mPfds.take 2).length net := by
      rw [htake, ← hsplit]
      simp [IPCServer.scan]
    obtain ⟨hi, hd, hm, _⟩ := IPCServer.scanLoop_spec (mPfds.drop 2) (mPfds.take 2) net
      (mPfds.drop 2).length (by omega) (Nat.le_refl _)
    rw [hscan]
    refine ⟨?_, hm hnd, by omega⟩
    intro p hp
    rw [hd, filter_fd_length _ hnd p hp]
    constructor
    · intro hin
      have : p.revents ≠ 0 := by
        intro h0
        rw [h0] at hin
        exact hin (Nat.zero_and _)
      rw [if_pos this]
    · split <;> omega
  · have h0 : mPfds.length - 2 = 0 := by omega
    have hdrop : mPfds.drop 2 = [] := List.drop_eq_nil_of_le (by omega)
    have htake : mPfds.take 2 = mPfds := List.take_of_length_le (by omega)
    simp only [IPCServer.scan, h0, IPCServer.scanLoop, hdrop, htake]
    refine ⟨?_, by simp, by omega⟩
    intro p hp
    cases hp

/-- Witness of C5: with clients 5, 6, 7, 8 of which 6 and 7 are erased during the scan, client
5 is drained once and the clients that remain are 5 and 8, in that order. -/
theorem C5_scan_under_removal_witness :
    drains 5 (IPCServer.scan fourClients fourNet).trace = 1
      ∧ (IPCServer.scan fourClients fourNet).mPfds
          = [⟨3, POLLIN, POLLIN⟩, ⟨4, POLLIN, 0⟩, ⟨5, POLLIN, 0⟩, ⟨8, POLLIN, 0⟩] := by
  have h := C5_scan_under_removal fourClients fourNet (by decide)
  exact ⟨(h.1 ⟨5, POLLIN, POLLIN⟩ (by decide)).1 (by decide), by rw [h.2.1]; decide⟩

/-! ## C1: the data events of a wake-up -/

/-- C6 (evaluation at the failing input). `stop` publishes `onReadyChanged(false)` whatever the
ready flag is. After connect, end-of-stream and a failed reconnect, `stop` publishes a second
`false` in a row; on a client that never connected it publishes `false` with no `true` before
it. -/
theorem C6_stop_repeats_ready_false :
    readyTrace (ClientSys.run
        [.start "chat" clientStartOk, .pass connectOk, .pass peerCloses, .stop [connectFails]]
        idleClient).2 = [true, false, false]
      ∧ readyTrace (ClientSys.run [.start "chat" clientStartOk, .stop [connectFails]]
        idleClient).2 = [false]
      ∧ (∀ (envs : List LoopEnv) (c : IPCClient) (thread : LoopAt),
          (IPCClient.stop envs ⟨{ c with mRunning := true }, thread⟩).trace.head?
            = some (.onReadyChanged false)) := by
  refine ⟨by decide, by decide, ?_⟩
  intro envs c thread
  simp only [IPCClient.stop, Bool.not_true, Bool.false_eq_true, if_false]
  split <;> rfl

/-! ## C7: lifecycle errors -/

/-- C7. Lifecycle errors change nothing: on a running server or client `start` returns
`kAlreadyStarted`, on a server or client that is not running `stop` returns `kNotStarted`, and
in each case every member (and the loop thread) is as before and the trace of system calls
and notifications is empty. -/
theorem C7_lifecycle_errors_change_nothing (s : IPCServer) (w : ClientSys) (name : String)
    (env : StartEnv) (cenv : ClientStartEnv) (inflight : Option WakeEnv)
    (envs : List LoopEnv) :
    (s.mRunning = true → IPCServer.start name env s = ⟨.ok .kAlreadyStarted, s, []⟩)
      ∧ (s.mRunning = false → IPCServer.stop inflight s = ⟨.ok .kNotStarted, s, []⟩)
      ∧ (w.obj.mRunning = true → IPCClient.start name cenv w = ⟨.ok .kAlreadyStarted, w, []⟩)
      ∧ (w.obj.mRunning = false → IPCClient.stop envs w = ⟨.ok .kNotStarted, w, []⟩) := by
  refine ⟨?_, ?_, ?_, ?_⟩
  · intro h; simp [IPCServer.start, h]
  · intro h; simp [IPCServer.stop, h]
  · intro h; simp [IPCClient.start, h]
  · intro h; simp [IPCClient.stop, h]

/-- Witness of C7: a second `start` on the running server and on the connected client, a
`stop` on a fresh server and on a client that was never started. -/
theorem C7_lifecycle_errors_change_nothing_witness :
    IPCServer.start "chat" startOk runningServer = ⟨.ok .kAlreadyStarted, runningServer, []⟩
      ∧ IPCServer.stop none (IPCServer.fresh 0 0)
          = ⟨.ok .kNotStarted, IPCServer.fresh 0 0, []⟩
      ∧ IPCClient.start "chat" clientStartOk connectedClient
          = ⟨.ok .kAlreadyStarted, connectedClient, []⟩
      ∧ IPCClient.stop [] idleClient = ⟨.ok .kNotStarted, idleClient, []⟩ :=
  ⟨(C7_lifecycle_errors_change_nothing runningServer connectedClient "chat" startOk
      clientStartOk none []).1 rfl,
   (C7_lifecycle_errors_change_nothing (IPCServer.fresh 0 0) idleClient "chat" startOk
      clientStartOk none []).2.1 rfl,
   (C7_lifecycle_errors_change_nothing runningServer connectedClient "chat" startOk
      clientStartOk none []).2.2.1 rfl,
   (C7_lifecycle_errors_change_nothing (IPCServer.fresh 0 0) idleClient "chat" startOk
      clientStartOk none []).2.2.2 rfl⟩

/-! ## C8: `IPCServer::stop` -/

theorem map_fd_set (v : List pollfd) (i : Nat) (q : pollfd)
    (h : q.fd = (v.getD i default).fd) : (v.set i q).map pollfd.fd = v.map pollfd.fd := by
  induction v generalizing i with
  | nil => rfl
  | cons a t ih =>
    cases i with
    | zero => simp only [List.set_cons_zero, List.map_cons]; rw [h]; rfl
    | succ n =>
      simp only [List.set_cons_succ, List.map_cons]
      rw [ih n (by simpa using h)]

theorem map_fd_pollStore (revents : Nat → Nat) (k : Nat) (v : List pollfd) :
    (pollStore revents k v).map pollfd.fd = v.map pollfd.fd := by
  induction v generalizing k with
  | nil => rfl
  | cons a t ih => simp [pollStore, ih]

/-- Effects that the data scan can produce. -/
theorem IPCServer.recvLoop_no_accept (mPfds : List pollfd) (i : Nat) (data : Data)
    (bytes : Int) (script : List RecvResult) (fd : Int) :
    ServerEffect.sys (.accept fd) ∉ (IPCServer.recvLoop mPfds i data bytes script).trace := by
  induction script generalizing data bytes with
  | nil => simp [IPCServer.recvLoop]
  | cons r rest ih =>
    simp only [IPCServer.recvLoop]
    by_cases h1 : r.ret > 0
    · simp only [h1, if_true, List.mem_cons, not_or]
      exact ⟨by simp, ih _ _⟩
    · by_cases h2 : r.ret = 0 <;> simp [h1, h2]

theorem IPCServer.scanBody_no_accept (mPfds : List pollfd) (i : Nat) (net : Net) (fd : Int) :
    ServerEffect.sys (.accept fd) ∉ (IPCServer.scanBody mPfds i net).trace := by
  by_cases h : lnot (mPfds.getD i default).revents &&& POLLIN ≠ 0
  · simp only [IPCServer.scanBody, if_pos h]
    simp
  · simp only [IPCServer.scanBody, if_neg h, List.mem_append, not_or]
    refine ⟨IPCServer.recvLoop_no_accept _ _ _ _ _ _, ?_⟩
    split <;> simp

theorem IPCServer.scanLoop_no_accept (fuel : Nat) (mPfds : List pollfd) (i : Nat) (net : Net)
    (fd : Int) :
    ServerEffect.sys (.accept fd) ∉ (IPCServer.scanLoop fuel mPfds i net).trace := by
  induction fuel generalizing mPfds i net with
  | zero => simp [IPCServer.scanLoop]
  | succ n ih =>
    simp only [IPCServer.scanLoop]
    split
    · simp only [List.mem_append, not_or]
      exact ⟨IPCServer.scanBody_no_accept _ _ _ _, ih _ _ _⟩
    · simp

/-- The scan keeps or closes every registered descriptor. -/
theorem IPCServer.scan_fds (mPfds : List pollfd) (net : Net) :
    ∀ p ∈ mPfds, p.fd ∈ (IPCServer.scan mPfds net).mPfds.map pollfd.fd
      ∨ ServerEffect.sys (.close p.fd) ∈ (IPCServer.scan mPfds net).trace := by
  intro p hp
  by_cases hlen : 2 ≤ mPfds.length
  · have hsplit : mPfds = mPfds.take 2 ++ mPfds.drop 2 := (List.take_append_drop 2 mPfds).symm
    have htake : (mPfds.take 2).length = 2 := by simp [hlen]
    have hscan : IPCServer.scan mPfds net
        = IPCServer.scanLoop (mPfds.drop 2).length (mPfds.take 2 ++ mPfds.drop 2)
            (mPfds.take 2).length net := by
      rw [htake, ← hsplit]
      simp [IPCServer.scan]
    obtain ⟨_, _, _, kept, hk, hc⟩ := IPCServer.scanLoop_spec (mPfds.drop 2) (mPfds.take 2) net
      (mPfds.drop 2).length (by omega) (Nat.le_refl _)
    rw [hscan, hk]
    rw [hsplit] at hp
    rcases List.mem_append.mp hp with h | h
    · left
      simp only [List.map_append, List.mem_append]
      exact Or.inl (List.mem_map_of_mem _ h)
    · rcases hc p h with h2 | h2
      · left
        simp only [List.map_append, List.mem_append]
        exact Or.inr h2
      · exact Or.inr h2
  · have h0 : mPfds.length - 2 = 0 := by omega
    left
    simp only [IPCServer.scan, h0, IPCServer.scanLoop]
    exact List.mem_map_of_mem _ hp

theorem IPCServer.scan_fds_of_map (M : List pollfd) (net : Net) (f : Int)
    (hf : f ∈ M.map pollfd.fd) :
    f ∈ (IPCServer.scan M net).mPfds.map pollfd.fd
      ∨ ServerEffect.sys (.close f) ∈ (IPCServer.scan M net).trace := by
  obtain ⟨q, hq, rfl⟩ := List.mem_map.mp hf
  exact IPCServer.scan_fds M net q hq

/-- A pass of the server loop whose `poll` does not fail fatally changes only `mPfds`, keeps or
closes every registered descriptor, and registers or closes every descriptor it accepts. -/
theorem IPCServer.loopBody_ok (env : WakeEnv) (s : IPCServer)
    (h : env.pollRet = -1 → env.errno = EINTR) :
    ∃ m t, IPCServer.loopBody env s = .ok ({ s with mPfds := m }, t)
      ∧ (∀ f ∈ s.mPfds.map pollfd.fd, f ∈ m.map pollfd.fd ∨ ServerEffect.sys (.close f) ∈ t)
      ∧ (∀ fd, ServerEffect.sys (.accept fd) ∈ t
          → fd ∈ m.map pollfd.fd ∨ ServerEffect.sys (.close fd) ∈ t) := by
  unfold IPCServer.loopBody
  by_cases h1 : env.pollRet > 0
  · simp only [h1, if_true]
    generalize hM0 : pollStore env.revents 0 s.mPfds = M0
    have hfd0 : M0.map pollfd.fd = s.mPfds.map pollfd.fd := by
      rw [← hM0]; exact map_fd_pollStore _ _ _
    generalize hM1 : (if (M0.getD 0 default).revents &&& POLLIN ≠ 0
      then M0.set 0 { M0.getD 0 default with revents := 0 } else M0) = M1
    have hfd1 : M1.map pollfd.fd = s.mPfds.map pollfd.fd := by
      rw [← hM1, ← hfd0]
      split
      · exact map_fd_set _ _ _ rfl
      · rfl
    generalize ht0 : (if (M0.getD 0 default).revents &&& POLLIN ≠ 0
      then [ServerEffect.sys (.read s.mPipe.1)] else []) = t0
    have hacc0 : ∀ fd, ServerEffect.sys (.accept fd) ∉ t0 := by
      intro fd
      rw [← ht0]
      split <;> simp
    have hfd2 : (M1.set 1 { M1.getD 1 default with revents := 0 }).map pollfd.fd
        = s.mPfds.map pollfd.fd := by
      rw [← hfd1]; exact map_fd_set _ _ _ rfl
    by_cases h2 : (M1.getD 1 default).revents &&& POLLIN ≠ 0
    · rw [if_pos h2]
      by_cases h3 : env.cfd = -1
      · rw [if_pos h3]
        refine ⟨_, _, rfl, ?_, ?_⟩
        · intro f hf
          rw [← hfd2] at hf
          exact Or.inl hf
        · intro fd hfd
          exact absurd hfd (hacc0 fd)
      · rw [if_neg h3]
        have hclosed : ∀ f ∈ s.mPfds.map pollfd.fd,
            f ∈ (M1.set 1 { M1.getD 1 default with revents := 0 }).map pollfd.fd
              ∨ ServerEffect.sys (.close f)
                  ∈ t0 ++ [ServerEffect.sys (.accept env.cfd), .sys (.close env.cfd)] := by
          intro f hf
          rw [← hfd2] at hf
          exact Or.inl hf
        have hacc : ∀ fd, ServerEffect.sys (.accept fd)
              ∈ t0 ++ [ServerEffect.sys (.accept env.cfd), .sys (.close env.cfd)]
            → fd ∈ (M1.set 1 { M1.getD 1 default with revents := 0 }).map pollfd.fd
              ∨ ServerEffect.sys (.close fd)
                  ∈ t0 ++ [ServerEffect.sys (.accept env.cfd), .sys (.close env.cfd)] := by
          intro fd hfd
          rcases List.mem_append.mp hfd with h4 | h4
          · exact absurd h4 (hacc0 fd)
          · simp at h4
            subst h4
            right
            simp
        by_cases h4 : env.getfl = -1
        · rw [if_pos h4]
          exact ⟨_, _, rfl, hclosed, hacc⟩
        · rw [if_neg h4]
          by_cases h5 : env.setfl = -1
          · rw [if_pos h5]
            exact ⟨_, _, rfl, hclosed, hacc⟩
          · rw [if_neg h5]
            refine ⟨_, _, rfl, ?_, ?_⟩
            · intro f hf
              have : f ∈ (M1.set 1 { M1.getD 1 default with revents := 0 }
                  ++ [pollfd.mk env.cfd POLLIN env.pfdRevents]).map pollfd.fd := by
                rw [List.map_append, hfd2]
                exact List.mem_append_left _ hf
              rcases IPCServer.scan_fds_of_map _ env.net f this with h6 | h6
              · exact Or.inl h6
              · exact Or.inr (List.mem_append_right _ h6)
            · intro fd hfd
              rcases List.mem_append.mp hfd with h6 | h6
              · rcases List.mem_append.mp h6 with h7 | h7
                · exact absurd h7 (hacc0 fd)
                · simp at h7
                  subst h7
                  have : env.cfd ∈ (M1.set 1 { M1.getD 1 default with revents := 0 }
                      ++ [pollfd.mk env.cfd POLLIN env.pfdRevents]).map pollfd.fd := by
                    rw [List.map_append]
                    exact List.mem_append_right _ (by simp)
                  rcases IPCServer.scan_fds_of_map _ env.net _ this with h8 | h8
                  · exact Or.inl h8
                  · exact Or.inr (List.mem_append_right _ h8)
              · exact absurd h6 (IPCServer.scanLoop_no_accept _ _ _ _ _)
    · rw [if_neg h2]
      refine ⟨_, _, rfl, ?_, ?_⟩
      · intro f hf
        rw [← hfd1] at hf
        rcases IPCServer.scan_fds_of_map M1 env.net f hf with h3 | h3
        · exact Or.inl h3
        · exact Or.inr (List.mem_append_right _ h3)
      · intro fd hfd
        rcases List.mem_append.mp hfd with h3 | h3
        · exact absurd h3 (hacc0 fd)
        · exact absurd h3 (IPCServer.scanLoop_no_accept _ _ _ _ _)
  · rw [if_neg h1]
    have hself : ∃ m t, (Except.ok (s, []) : Except String (IPCServer × List ServerEffect))
        = .ok ({ s with mPfds := m }, t)
        ∧ (∀ f ∈ s.mPfds.map pollfd.fd,
            f ∈ m.map pollfd.fd ∨ ServerEffect.sys (.close f) ∈ t)
        ∧ (∀ fd, ServerEffect.sys (.accept fd) ∈ t
            → fd ∈ m.map pollfd.fd ∨ ServerEffect.sys (.close fd) ∈ t) :=
      ⟨s.mPfds, [], rfl, fun f hf => Or.inl hf, fun fd hfd => by cases hfd⟩
    by_cases h2 : env.pollRet = 0
    · rw [if_pos h2]
      exact ⟨_, [], rfl, fun f hf => Or.inl (by rw [map_fd_pollStore]; exact hf),
        fun fd hfd => by cases hfd⟩
    · rw [if_neg h2]
      by_cases h3 : env.pollRet = -1
      · rw [if_pos h3, if_pos (h h3)]; exact hself
      · rw [if_neg h3]; exact hself

/-- What `stop` does on a running server, given what the loop thread did before `join`
returned. -/
theorem IPCServer.stop_running (s : IPCServer) (inflight : Option WakeEnv)
    (hrun : s.mRunning = true)
    (hjoin : ∀ env, inflight = some env → env.pollRet = -1 → env.errno = EINTR) :
    ∃ (m : List pollfd) (tl : List ServerEffect), IPCServer.stop inflight s
        = ⟨.ok .kSuccess,
            { mRunning := false, mPipe := (0, 0), mSfd := 0, mServerName := s.mServerName,
              mThread := none, mPfds := [], mBuffer := none },
            [ServerEffect.sys (.write s.mPipe.2)] ++ tl ++ [.sys .join]
              ++ m.map (fun p => ServerEffect.sys (.close p.fd))
              ++ [.sys (.close s.mSfd), .sys (.close s.mPipe.1), .sys (.close s.mPipe.2),
                  .sys .free]⟩
      ∧ (∀ f ∈ s.mPfds.map pollfd.fd, f ∈ m.map pollfd.fd ∨ ServerEffect.sys (.close f) ∈ tl)
      ∧ (∀ fd, ServerEffect.sys (.accept fd) ∈ tl
          → fd ∈ m.map pollfd.fd ∨ ServerEffect.sys (.close fd) ∈ tl) := by
  cases inflight with
  | none =>
    refine ⟨s.mPfds, [], ?_, fun f hf => Or.inl hf, fun fd hfd => by cases hfd⟩
    simp [IPCServer.stop, hrun]
  | some env =>
    obtain ⟨m, tl, hb, h1, h2⟩ :=
      IPCServer.loopBody_ok env { s with mRunning := false } (hjoin env rfl)
    refine ⟨m, tl, ?_, h1, h2⟩
    simp [IPCServer.stop, hrun, hb]

/-- After `stop`, `start` behaves as on a default-constructed server. -/
theorem IPCServer.start_after_stop (oldName name : String) (env : StartEnv)
    (pipe0 pipe1 : Int) :
    (IPCServer.start name env
        { mRunning := false, mPipe := (0, 0), mSfd := 0, mServerName := oldName,
          mThread := none, mPfds := [], mBuffer := none }).result
        = (IPCServer.start name env (IPCServer.fresh pipe0 pipe1)).result
      ∧ (IPCServer.start name env
        { mRunning := false, mPipe := (0, 0), mSfd := 0, mServerName := oldName,
          mThread := none, mPfds := [], mBuffer := none }).trace
        = (IPCServer.start name env (IPCServer.fresh pipe0 pipe1)).trace
      ∧ (env.malloc ≠ none → env.pipeRet ≠ -1 →
          (IPCServer.start name env
            { mRunning := false, mPipe := (0, 0), mSfd := 0, mServerName := oldName,
              mThread := none, mPfds := [], mBuffer := none }).state
            = (IPCServer.start name env (IPCServer.fresh pipe0 pipe1)).state) := by
  by_cases h1 : env.malloc = none
  · simp [IPCServer.start, IPCServer.fresh, h1]
  by_cases h2 : env.pipeRet = -1
  · simp [IPCServer.start, IPCServer.fresh, h1, h2]
  simp only [IPCServer.start, IPCServer.fresh, IPCServer.unwind, IPCServer.unwindPipe,
    Bool.false_eq_true, if_false, h1, h2]
  refine ⟨?_, ?_, fun _ _ => ?_⟩ <;> trivial

/-- C8. Server stop postcondition: on every running server, whatever the loop thread does in
its last pass (unless `poll` fails fatally there, which ends the process), `stop` returns
`kSuccess`; afterwards the server is not running, `mPfds` is empty, the thread handle and the
scratch buffer are null and `mSfd`, `mPipe` are zero; `close` has been issued on every
registered descriptor, on every descriptor accepted meanwhile, on the listening socket and on
both ends of the wake pipe; and a following `start` returns, does and (once its `pipe`
succeeded) leaves the same as on a default-constructed server. -/
theorem C8_server_stop_postcondition (s : IPCServer) (inflight : Option WakeEnv)
    (hrun : s.mRunning = true)
    (hjoin : ∀ env, inflight = some env → env.pollRet = -1 → env.errno = EINTR) :
    (IPCServer.stop inflight s).result = .ok .kSuccess
      ∧ (IPCServer.stop inflight s).state
          = { mRunning := false, mPipe := (0, 0), mSfd := 0, mServerName := s.mServerName,
              mThread := none, mPfds := [], mBuffer := none }
      ∧ (∀ p ∈ s.mPfds, ServerEffect.sys (.close p.fd) ∈ (IPCServer.stop inflight s).trace)
      ∧ (∀ fd, ServerEffect.sys (.accept fd) ∈ (IPCServer.stop inflight s).trace
          → ServerEffect.sys (.close fd) ∈ (IPCServer.stop inflight s).trace)
      ∧ ServerEffect.sys (.close s.mSfd) ∈ (IPCServer.stop inflight s).trace
      ∧ ServerEffect.sys (.close s.mPipe.1) ∈ (IPCServer.stop inflight s).trace
      ∧ ServerEffect.sys (.close s.mPipe.2) ∈ (IPCServer.stop inflight s).trace
      ∧ (∀ (name : String) (env : StartEnv) (pipe0 pipe1 : Int),
          (IPCServer.start name env (IPCServer.stop inflight s).state).result
              = (IPCServer.start name env (IPCServer.fresh pipe0 pipe1)).result
            ∧ (IPCServer.start name env (IPCServer.stop inflight s).state).trace
              = (IPCServer.start name env (IPCServer.fresh pipe0 pipe1)).trace
            ∧ (env.malloc ≠ none → env.pipeRet ≠ -1 →
                (IPCServer.start name env (IPCServer.stop inflight s).state).state
                  = (IPCServer.start name env (IPCServer.fresh pipe0 pipe1)).state)) := by
  obtain ⟨m, tl, hstop, hkeep, hacc⟩ := IPCServer.stop_running s inflight hrun hjoin
  have hcl : ∀ f, f ∈ m.map pollfd.fd ∨ ServerEffect.sys (.close f) ∈ tl →
      ServerEffect.sys (.close f) ∈ (IPCServer.stop inflight s).trace := by
    intro f hf
    rw [hstop]
    rcases hf with hf | hf
    · obtain ⟨q, hq, rfl⟩ := List.mem_map.mp hf
      have : ServerEffect.sys (.close q.fd)
          ∈ m.map (fun p => ServerEffect.sys (.close p.fd)) :=
        List.mem_map.mpr ⟨q, hq, rfl⟩
      simp only [List.mem_append]
      exact Or.inl (Or.inr this)
    · simp only [List.mem_append]
      exact Or.inl (Or.inl (Or.inl (Or.inr hf)))
  refine ⟨by rw [hstop], by rw [hstop], ?_, ?_, ?_, ?_, ?_, ?_⟩
  · intro p hp
    exact hcl p.fd (hkeep p.fd (List.mem_map_of_mem _ hp))
  · intro fd hfd
    apply hcl fd
    apply hacc fd
    rw [hstop] at hfd
    simp only [List.mem_append, List.mem_map] at hfd
    rcases hfd with (((h | h) | h) | h) | h
    · simp at h
    · exact h
    · simp at h
    · obtain ⟨_, _, h⟩ := h; cases h
    · simp at h
  · rw [hstop]; simp
  · rw [hstop]; simp
  · rw [hstop]; simp
  · intro name env pipe0 pipe1
    rw [hstop]
    exact IPCServer.start_after_stop s.mServerName name env pipe0 pipe1

/-- Witness of C8: `stop` on a running server with clients 5 and 6 whose loop thread, in its
last pass, accepts client 7 and sees client 5 closed by its peer. -/
theorem C8_server_stop_postcondition_witness :
    (IPCServer.stop (some lastPass) runningServer).result = .ok .kSuccess
      ∧ (IPCServer.stop (some lastPass) runningServer).state.mPfds = []
      ∧ ServerEffect.sys (.close 6) ∈ (IPCServer.stop (some lastPass) runningServer).trace
      ∧ ServerEffect.sys (.close 7) ∈ (IPCServer.stop (some lastPass) runningServer).trace :=
  have h := C8_server_stop_postcondition runningServer (some lastPass) rfl
    (by intro env he hp; cases he; exact absurd hp (by decide))
  ⟨h.1, by rw [h.2.1], h.2.2.1 ⟨6, POLLIN, 0⟩ (by decide), h.2.2.2.1 7 (by decide)⟩

/-! ## C9: `IPCClient::stop` -/

/-- C9 (evaluation at the failing input). `stop` on a client whose connection on descriptor 5
is established returns `kSuccess` after closing both ends of the wake pipe; `close(5)` is not
among its system calls, and after start, connect and stop descriptor 5 is still open. -/
theorem C9_client_stop_leaves_socket_open :
    (IPCClient.stop [wakeOnly] connectedClient).result = .ok .kSuccess
      ∧ ClientEffect.calls (IPCClient.stop [wakeOnly] connectedClient).trace
          = [.write 4, .read 3, .join, .close 3, .close 4, .free]
      ∧ openAfter [] (ClientEffect.calls (ClientSys.run
          [.start "chat" clientStartOk, .pass connectOk, .stop [wakeOnly]] idleClient).2)
          = [5] :=
  ⟨rfl, by decide, by decide⟩

/-! ## C10: a failing `recv` in the server -/

/-- C10 (evaluation at the failing input). `recv` on client 5 fails, with `ECONNRESET` or any
other `errno`: the scan only leaves the receive loop; it does not close 5, does not erase its
registration and publishes nothing, exactly as when the socket would block. -/
theorem C10_read_error_is_ignored (errno : Nat) :
    (IPCServer.scan oneClient (failNet errno)).trace = [.sys (.recv 5 (-1))]
      ∧ (IPCServer.scan oneClient (failNet errno)).mPfds
          = [⟨3, POLLIN, 0⟩, ⟨4, POLLIN, 0⟩, ⟨5, POLLIN, 0⟩] :=
  ⟨rfl, rfl⟩

/-! ## C11: a `start` that fails -/

theorem erase_pair (a b : Int) : ([b, a].erase a).erase b = [] := by
  by_cases h : b = a
  · subst h; simp
  · have h2 : ¬ (b == a) = true := by simpa using h
    simp [List.erase_cons, h2]

theorem erase_triple (a b c : Int) : (([c, b, a].erase c).erase a).erase b = [] := by
  simp only [List.erase_cons_head]
  exact erase_pair a b

/-- A failing `start` closes every descriptor it opened. -/
theorem IPCServer.start_failure_closes (name : String) (env : StartEnv) (s : IPCServer)
    (hs : s.mRunning = false)
    (hfail : (IPCServer.start name env s).result ≠ .ok .kSuccess) :
    openAfter [] (ServerEffect.calls (IPCServer.start name env s).trace) = [] := by
  by_cases h1 : env.malloc = none
  · simp only [IPCServer.start, hs, eq_true h1, Bool.false_eq_true, if_true, if_false,
      IPCServer.unwind, IPCServer.unwindPipe, ServerEffect.calls, openAfter, List.cons_append,
      List.nil_append]
  by_cases h2 : env.pipeRet = -1
  · simp only [IPCServer.start, hs, eq_false h1, eq_true h2, Bool.false_eq_true, if_true, if_false,
      IPCServer.unwind, IPCServer.unwindPipe, ServerEffect.calls, openAfter, List.cons_append,
      List.nil_append]
  by_cases h3 : env.pipeGetfl = -1
  · simp only [IPCServer.start, hs, eq_false h1, eq_false h2, eq_true h3, Bool.false_eq_true, if_true, if_false,
      IPCServer.unwind, IPCServer.unwindPipe, ServerEffect.calls, openAfter, List.cons_append,
      List.nil_append]
    exact erase_pair _ _
  by_cases h4 : env.pipeSetfl = -1
  · simp only [IPCServer.start, hs, eq_false h1, eq_false h2, eq_false h3, eq_true h4, Bool.false_eq_true, if_true, if_false,
      IPCServer.unwind, IPCServer.unwindPipe, ServerEffect.calls, openAfter, List.cons_append,
      List.nil_append]
    exact erase_pair _ _
  by_cases h5 : env.socket = -1
  · simp only [IPCServer.start, hs, eq_false h1, eq_false h2, eq_false h3, eq_false h4, eq_true h5, Bool.false_eq_true, if_true, if_false,
      IPCServer.unwind, IPCServer.unwindPipe, ServerEffect.calls, openAfter, List.cons_append,
      List.nil_append]
    exact erase_pair _ _
  by_cases h6 : env.removeRet = -1 ∧ env.removeErrno ≠ ENOENT
  · simp only [IPCServer.start, hs, eq_false h1, eq_false h2, eq_false h3, eq_false h4, eq_false h5, eq_true h6, Bool.false_eq_true, if_true, if_false,
      IPCServer.unwind, IPCServer.unwindPipe, ServerEffect.calls, openAfter, List.cons_append,
      List.nil_append]
    exact erase_triple _ _ _
  by_cases h7 : env.bindRet = -1
  · simp only [IPCServer.start, hs, eq_false h1, eq_false h2, eq_false h3, eq_false h4, eq_false h5, eq_false h6, eq_true h7, Bool.false_eq_true, if_true, if_false,
      IPCServer.unwind, IPCServer.unwindPipe, ServerEffect.calls, openAfter, List.cons_append,
      List.nil_append]
    exact erase_triple _ _ _
  by_cases h8 : env.listenRet = -1
  · simp only [IPCServer.start, hs, eq_false h1, eq_false h2, eq_false h3, eq_false h4, eq_false h5, eq_false h6, eq_false h7, eq_true h8, Bool.false_eq_true, if_true, if_false,
      IPCServer.unwind, IPCServer.unwindPipe, ServerEffect.calls, openAfter, List.cons_append,
      List.nil_append]
    exact erase_triple _ _ _
  by_cases h9 : env.sockGetfl = -1
  · simp only [IPCServer.start, hs, eq_false h1, eq_false h2, eq_false h3, eq_false h4, eq_false h5, eq_false h6, eq_false h7, eq_false h8, eq_true h9, Bool.false_eq_true, if_true, if_false,
      IPCServer.unwind, IPCServer.unwindPipe, ServerEffect.calls, openAfter, List.cons_append,
      List.nil_append]
    exact erase_triple _ _ _
  by_cases h10 : env.sockSetfl = -1
  · simp only [IPCServer.start, hs, eq_false h1, eq_false h2, eq_false h3, eq_false h4, eq_false h5, eq_false h6, eq_false h7, eq_false h8, eq_false h9, eq_true h10, Bool.false_eq_true, if_true, if_false,
      IPCServer.unwind, IPCServer.unwindPipe, ServerEffect.calls, openAfter, List.cons_append,
      List.nil_append]
    exact erase_triple _ _ _
  exact absurd (by simp only [IPCServer.start, hs, eq_false h1, eq_false h2, eq_false h3, eq_false h4, eq_false h5, eq_false h6, eq_false h7, eq_false h8, eq_false h9, eq_false h10, Bool.false_eq_true,
    if_false]) hfail

/-- A failing `start` that got as far as registering the wake pipe leaves that registration
in `mPfds`. -/
theorem IPCServer.start_failure_keeps_registration (name : String) (env : StartEnv)
    (s : IPCServer) (hs : s.mRunning = false) (hm : env.malloc ≠ none)
    (hp : env.pipeRet ≠ -1) (hg : env.pipeGetfl ≠ -1) (hf : env.pipeSetfl ≠ -1)
    (hfail : (IPCServer.start name env s).result ≠ .ok .kSuccess) :
    (IPCServer.start name env s).state.mRunning = false
      ∧ (IPCServer.start name env s).state.mPfds
          = s.mPfds ++ [⟨env.pipeFds.1, POLLIN, env.pfdRevents⟩] := by
  simp only [IPCServer.start, hs, hm, hp, hg, hf, Bool.false_eq_true, if_false,
    IPCServer.unwind, IPCServer.unwindPipe] at hfail ⊢
  split_ifs at hfail ⊢ <;> first
    | exact ⟨rfl, rfl⟩
    | exact ⟨hs, rfl⟩
    | exact absurd rfl hfail

/-- C11 (evaluation at the failing input). `start` on a default-constructed server fails at
`bind`: it reports the failure, the server is not running and pipe and socket are closed, but
the registration of the wake pipe pushed before `socket` stays in `mPfds`. The next `start`
succeeds and appends to it, so `mPfds[1]` is the new wake pipe and the listening socket is
`mPfds[2]`, where the loop looks for the first client. -/
theorem C11_failed_start_keeps_registration :
    (∃ msg, (IPCServer.start "chat" bindFails (IPCServer.fresh 0 0)).result = .error msg)
      ∧ (IPCServer.start "chat" bindFails (IPCServer.fresh 0 0)).state.mRunning = false
      ∧ openAfter []
          (ServerEffect.calls (IPCServer.start "chat" bindFails (IPCServer.fresh 0 0)).trace)
          = []
      ∧ (IPCServer.start "chat" bindFails (IPCServer.fresh 0 0)).state.mPfds
          = [⟨3, POLLIN, 0⟩]
      ∧ (IPCServer.start "chat" startOk
          (IPCServer.start "chat" bindFails (IPCServer.fresh 0 0)).state).result
          = .ok .kSuccess
      ∧ (IPCServer.start "chat" startOk
          (IPCServer.start "chat" bindFails (IPCServer.fresh 0 0)).state).state.mPfds
          = [⟨3, POLLIN, 0⟩, ⟨3, POLLIN, 0⟩, ⟨4, POLLIN, 0⟩] :=
  ⟨⟨_, rfl⟩, rfl, by decide, by decide, rfl, by decide⟩

/-! ## C12: `IPCClient::send` -/

theorem IPCClient.recvLoop_obj (c : IPCClient) (script : List RecvResult) :
    ∀ (data : Data) (bytesRead : Int),
      (IPCClient.recvLoop c data bytesRead script).obj = c
        ∨ (IPCClient.recvLoop c data bytesRead script).obj
            = { c with mSfd := 0, mReady := false } := by
  induction script with
  | nil => intro _ _; exact Or.inl rfl
  | cons r rest ih =>
    intro data bytesRead
    simp only [IPCClient.recvLoop]
    by_cases h1 : r.ret > 0
    · simp only [h1, if_true]
      exact ih _ _
    · by_cases h2 : r.ret = 0
      · simp [h1, h2]
      · simp only [h1, h2, if_false]
        split
        · exact Or.inr rfl
        · exact Or.inl rfl

/-- A pass through the body of `while (mReady)` never sets the ready flag, and as long as the
flag stays set it leaves `mSfd` and `mPfds[1].fd` alone. -/
theorem IPCClient.pollPass_ready (env : LoopEnv) (c : IPCClient)
    (h : (IPCClient.pollPass env c).1.obj.mReady = true) :
    c.mReady = true
      ∧ (IPCClient.pollPass env c).1.obj.mSfd = c.mSfd
      ∧ (IPCClient.pollPass env c).1.obj.mPfds.2.fd = c.mPfds.2.fd := by
  have key : ∀ (c2 : IPCClient) (data : Data) (n : Int),
      (IPCClient.recvLoop c2 data n env.recvs).obj.mReady = true →
        (IPCClient.recvLoop c2 data n env.recvs).obj = c2 := by
    intro c2 data n hr
    rcases IPCClient.recvLoop_obj c2 env.recvs data n with h1 | h1
    · exact h1
    · rw [h1] at hr; cases hr
  simp only [IPCClient.pollPass] at h ⊢
  split_ifs at h ⊢ <;> dsimp only at h ⊢ <;> first
    | exact ⟨h, rfl, rfl⟩
    | (have hk := key _ _ _ h
       rw [hk] at h ⊢
       exact ⟨h, rfl, rfl⟩)

/-- What a connection attempt that succeeds leaves behind. -/
theorem IPCClient.connectPass_ok (env : LoopEnv) (c : IPCClient)
    (hs : env.socket ≠ -1) (hc : env.connectRet ≠ -1) (hg : env.getfl ≠ -1)
    (hf : env.setfl ≠ -1) :
    (IPCClient.connectPass env c).1.obj.mReady = true
      ∧ (IPCClient.connectPass env c).1.obj.mSfd = env.socket
      ∧ (IPCClient.connectPass env c).1.obj.mPfds.2.fd = env.socket := by
  simp only [IPCClient.connectPass, hs, hc, hg, hf, if_false]
  exact ⟨trivial, trivial, trivial⟩

/-- C12 (amended). In every client state, whatever the ready flag, `send` performs exactly
one `send` call, with the given bytes, on the descriptor held in `mSfd`. When a connection
attempt has succeeded the ready flag is set and that descriptor is the one of the connection
(also registered as `mPfds[1].fd`), and it is still the one `send` uses after a pass of the
inner loop that leaves the ready flag set. -/
theorem C12_send_ignores_ready (c : IPCClient) (data : List Nat) (env next : LoopEnv)
    (hs : env.socket ≠ -1) (hc : env.connectRet ≠ -1) (hg : env.getfl ≠ -1)
    (hf : env.setfl ≠ -1) :
    sends (IPCClient.send data c) = [(c.mSfd, data)]
      ∧ (IPCClient.connectPass env c).1.obj.mReady = true
      ∧ (IPCClient.connectPass env c).1.obj.mPfds.2.fd = env.socket
      ∧ sends (IPCClient.send data (IPCClient.connectPass env c).1.obj)
          = [(env.socket, data)]
      ∧ ((IPCClient.pollPass next (IPCClient.connectPass env c).1.obj).1.obj.mReady = true →
          sends (IPCClient.send data
              (IPCClient.pollPass next (IPCClient.connectPass env c).1.obj).1.obj)
            = [(env.socket, data)]) := by
  obtain ⟨h1, h2, h3⟩ := IPCClient.connectPass_ok env c hs hc hg hf
  refine ⟨rfl, h1, h3, ?_, ?_⟩
  · simp only [IPCClient.send, sends, h2]
  · intro hr
    obtain ⟨_, h4, _⟩ := IPCClient.pollPass_ready next _ hr
    simp only [IPCClient.send, sends, h4, h2]

/-- Witness of C12 (amended): a client connects on descriptor 5, receives three bytes and
sends the bytes 1, 2. -/
theorem C12_send_ignores_ready_witness :
    sends (IPCClient.send [1, 2] idleClient.obj) = [(0, [1, 2])]
      ∧ sends (IPCClient.send [1, 2] (IPCClient.connectPass connectOk idleClient.obj).1.obj)
          = [(5, [1, 2])]
      ∧ sends (IPCClient.send [1, 2]
          (IPCClient.pollPass threeBytes
            (IPCClient.connectPass connectOk idleClient.obj).1.obj).1.obj)
          = [(5, [1, 2])] :=
  have h := C12_send_ignores_ready idleClient.obj [1, 2] connectOk threeBytes
    (by decide) (by decide) (by decide) (by decide)
  ⟨h.1, h.2.2.2.1, h.2.2.2.2 (by decide)⟩

/-- C12 (counterexample). On a client that was never started the ready flag is false and
`send` still writes, on descriptor 0; after start, connect and a successful `stop` the ready
flag is false and `send` still writes on the connection descriptor 5. -/
theorem C12_counterexample :
    idleClient.obj.mReady = false
      ∧ sends (IPCClient.send [1, 2] idleClient.obj) = [(0, [1, 2])]
      ∧ (ClientSys.run [.start "chat" clientStartOk, .pass connectOk, .stop [wakeOnly]]
          idleClient).1.obj.mReady = false
      ∧ sends (IPCClient.send [1, 2]
          (ClientSys.run [.start "chat" clientStartOk, .pass connectOk, .stop [wakeOnly]]
            idleClient).1.obj) = [(5, [1, 2])] := by
  decide

/-! ## C13: which connections the scan drains -/

/-- C13 (evaluation at the failing input). `!mPfds[i].revents & POLLIN` is
`(!revents) & POLLIN`, which is nonzero exactly when `revents` is zero: a client for which
`poll` reports `POLLHUP` without `POLLIN` is drained (`recv` is called on it), a client with
`revents = 0` is skipped. -/
theorem C13_scan_drains_on_any_revents :
    POLLHUP &&& POLLIN = 0
      ∧ (IPCServer.scan hangupClient silentNet).trace = [.sys (.recv 5 (-1))]
      ∧ (IPCServer.scan quietClient silentNet).trace = []
      ∧ (∀ revents : Nat, (lnot revents &&& POLLIN ≠ 0) ↔ revents = 0) :=
  ⟨by decide, by decide, by decide, lnot_and_POLLIN⟩

/-! ## C14: sockets created by the client loop -/

theorem ClientEffect.calls_append (a b : List ClientEffect) :
    ClientEffect.calls (a ++ b) = ClientEffect.calls a ++ ClientEffect.calls b := by
  induction a with
  | nil => rfl
  | cons e t ih => cases e <;> simp [ClientEffect.calls, ih]

/-- Every connection attempt that fails leaves one more socket open: after the attempts of
`envs`, all failing, the sockets they created are all open. -/
theorem ClientSys.passes_failed_connects (envs : List LoopEnv) :
    ∀ (c : IPCClient) (opened : List Int), c.mRunning = true →
      (∀ e ∈ envs, e.socket ≠ -1 ∧ e.connectRet = -1) →
      socketsOpen opened (ClientEffect.calls (ClientSys.passes envs ⟨c, .connect⟩).2)
        = (envs.map LoopEnv.socket).reverse ++ opened := by
  induction envs with
  | nil => intro c opened _ _; rfl
  | cons e es ih =>
    intro c opened hrun h
    obtain ⟨hs, hc⟩ := h e (by simp)
    have hstep : ClientSys.pass e ⟨c, .connect⟩
        = (⟨{ c with mSfd := e.socket }, .connect⟩,
            [.sys (.socket e.socket), .sys (.sleep c.mReconnectTimeout)]) := by
      simp [ClientSys.pass, IPCClient.connectPass, hs, hc, IPCClient.outerTest, hrun]
    simp only [ClientSys.passes, hstep, ClientEffect.calls_append, ClientEffect.calls,
      List.cons_append, List.nil_append, socketsOpen]
    rw [ih { c with mSfd := e.socket } (e.socket :: opened) hrun
      (fun x hx => h x (by simp [hx]))]
    simp

/-- C14 (evaluation at the failing input). After `start`, two connection attempts fail: each
creates a socket, sleeps and goes round the loop without `close`, so two sockets are open,
and `mSfd` only remembers the second. -/
theorem C14_failed_connect_leaks_socket :
    ClientEffect.calls (ClientSys.run
        [.start "chat" clientStartOk, .pass connectFails, .pass connectFailsAgain]
        idleClient).2
        = [.pipe 3 4, .socket 5, .sleep 10, .socket 6, .sleep 10]
      ∧ socketsOpen [] (ClientEffect.calls (ClientSys.run
        [.start "chat" clientStartOk, .pass connectFails, .pass connectFailsAgain]
        idleClient).2) = [6, 5]
      ∧ (ClientSys.run
        [.start "chat" clientStartOk, .pass connectFails, .pass connectFailsAgain]
        idleClient).1.obj.mSfd = 6 := by
  decide

end UT
